import Mathlib

/-!
Verification of the vrbo-scraper repository against its specification.

The scraper (package `vrbo_scraper`) drives a browser through search pages and
detail pages of a vacation-rental site.  This development gives a shallow
embedding of the pure data manipulations of the package:

* `src/vrbo_scraper/models.py`  — the `CityCfg` dataclass;
* `src/vrbo_scraper/utils.py`   — `clean_url`, `ensure_dates`,
  `build_entry_url`, `parse_price_amount`, `unique_list`;
* `src/vrbo_scraper/storage.py` — the in-memory `LocalDB`;
* `src/vrbo_scraper/search.py`  — the pagination loop of `run_city`;
* `src/vrbo_scraper/detail.py`  — the outcome structure of
  `scrape_detail_page` and the loop of `process_detail_targets`.

Browser interaction (Selenium calls, sleeps, the blocking `input()` pauses) is
represented by explicit observation inputs: each page the driver would show is
an input value describing what the extraction helpers would return there.
Strings are modelled by `String` / `List Char`; Python `int` by `Int`;
Python `float` results of price parsing by `Rat` (exact decimal values);
Python `None` by `Option`.  The relevant parts of CPython's `urllib.parse`
(version 3.11) are modelled on `List Char`.
-/

namespace Vrbo

/-! ## Data model: `CityCfg` (src/vrbo_scraper/models.py) -/

/-- `CityCfg` from `models.py`.  Dates are ISO strings in the source; here they
stay `Option String` (Python `None` is `none`).  Counts are Python `int`,
hence `Int`. -/
structure CityCfg where
  name : String
  region_name : Option String := none
  region_id : Option String := none
  search_url : Option String := none
  checkin : Option String := none
  checkout : Option String := none
  adults : Int := 2
  children : Int := 0
  rooms : Int := 1
  currency : String := "USD"
  locale : String := "es_CO"
  lang : String := "es"
  nights : Int := 1
  sort : String := "PRICE_LOW_TO_HIGH"
  flexibility : String := "0_DAY"
deriving DecidableEq

/-- Python truthiness of an `Optional[str]`: `None` and `""` are falsy. -/
def strTruthy : Option String → Bool
  | none => false
  | some s => !s.isEmpty

/-! ## `parse_price_amount` (utils.py lines 135-145)

```python
def parse_price_amount(text):
    if not text: return None
    match = re.search(r"([0-9][0-9.,]*)", text)
    if not match: return None
    raw = match.group(1)
    value = raw.replace(".", "").replace(",", ".")
    with contextlib.suppress(ValueError):
        return float(value)
    return None
```
-/

/-- Character class of the regex tail `[0-9.,]`. -/
def numTailChar (c : Char) : Bool := c.isDigit || c = '.' || c = ','

/-- First match of the regex `([0-9][0-9.,]*)`: scan to the first digit, then
take the maximal run of digits, dots and commas. -/
def firstNumberRun : List Char → Option (List Char)
  | [] => none
  | c :: cs => if c.isDigit then some (c :: cs.takeWhile numTailChar) else firstNumberRun cs

/-- Value of a digit string (most significant first). -/
def digitsVal (l : List Char) : Nat := l.foldl (fun a c => 10 * a + (c.toNat - 48)) 0

/-- Model of Python `float()` restricted to the strings `parse_price_amount`
can feed it: nonempty strings of digits and dots.  Valid iff there is at most
one dot; the value is the exact decimal (floats are modelled as rationals). -/
def pyFloatOfDigitsDots (l : List Char) : Option Rat :=
  if l.isEmpty then none
  else if l.all (fun c => c.isDigit || c = '.') then
    let ip := l.takeWhile (fun c => c != '.')
    match l.dropWhile (fun c => c != '.') with
    | [] => some (mkRat (digitsVal ip) 1)
    | _ :: frac =>
      if frac.all (fun c => c.isDigit) then
        some (mkRat (digitsVal (ip ++ frac)) (10 ^ frac.length))
      else none
  else none

/-- `parse_price_amount` from `utils.py`. -/
def parse_price_amount (text : Option String) : Option Rat :=
  match text with
  | none => none
  | some t =>
    if t.isEmpty then none
    else
      match firstNumberRun t.data with
      | none => none
      | some raw =>
        pyFloatOfDigitsDots ((raw.filter (fun c => c != '.')).map
          (fun c => if c = ',' then '.' else c))

/-! ## `ensure_dates` (utils.py lines 34-48)

`datetime.now().date()` is the external input `today`, modelled as a day
index; `date.isoformat()` is modelled by the injective rendering `dayIso`
(the claims are about day arithmetic, not calendar formatting). -/

/-- Rendering of a day index, standing in for `date.isoformat()`. -/
def dayIso (d : Int) : String := toString d

/-- `_force_tomorrow_dates` from `utils.py`. -/
def force_tomorrow_dates (today : Int) (c : CityCfg) : CityCfg :=
  let checkin := today + 1
  let checkout := checkin + max 1 c.nights
  { c with checkin := some (dayIso checkin), checkout := some (dayIso checkout) }

/-- `ensure_dates` from `utils.py`; `forceTomorrow` is the configuration flag
`VRBO_FORCE_TOMORROW`. -/
def ensure_dates (forceTomorrow : Bool) (today : Int) (c : CityCfg) : CityCfg :=
  if forceTomorrow then force_tomorrow_dates today c
  else if !strTruthy c.checkin || !strTruthy c.checkout then force_tomorrow_dates today c
  else c

/-! ## `unique_list` (utils.py lines 148-155)

```python
def unique_list(items):
    seen = set(); ordered = []
    for item in items:
        if item and item not in seen:
            seen.add(item); ordered.append(item)
    return ordered
```
-/

/-- The loop of `unique_list`, with the `seen` set as a list. -/
def uniqueGo (seen : List String) : List String → List String
  | [] => []
  | x :: xs =>
    if x != "" && !(seen.contains x) then x :: uniqueGo (x :: seen) xs
    else uniqueGo seen xs

/-- `unique_list` from `utils.py`. -/
def unique_list (items : List String) : List String := uniqueGo [] items

/-- Spec-side definition (for the refinement statement of C9): keep the first
occurrence of each element, in order. -/
def dedupKeepFirst (l : List String) : List String :=
  match l with
  | [] => []
  | x :: xs => x :: dedupKeepFirst (xs.filter (fun y => y != x))
termination_by l.length
decreasing_by
  simp_wf
  exact Nat.lt_succ_of_le (xs.length_filter_le _)

/-! ## Theorems for C4, C5, C9 -/

theorem firstNumberRun_eq_none {l : List Char} (h : ∀ c ∈ l, c.isDigit = false) :
    firstNumberRun l = none := by
  induction l with
  | nil => rfl
  | cons c cs ih =>
    simp only [firstNumberRun, h c (List.mem_cons_self c cs)]
    simp only [Bool.false_eq_true, if_false]
    exact ih fun d hd => h d (List.mem_cons_of_mem c hd)

/-- C4: the price parser maps "1.234,56 USD" to 1234.56 (as an exact decimal),
the empty string and `None` to `none`, and any string containing no digit to
`none`: the digit-run extraction, dot removal and comma conversion behave as
specified. -/
theorem claim_C4_price_parse :
    parse_price_amount (some "1.234,56 USD") = some (1234.56 : Rat) ∧
    parse_price_amount (some "") = none ∧
    parse_price_amount none = none ∧
    ∀ s : String, (∀ c ∈ s.data, c.isDigit = false) → parse_price_amount (some s) = none := by
  have h1 : parse_price_amount (some "1.234,56 USD") = some (mkRat 123456 100) := by decide
  have h2 : (mkRat 123456 100 : Rat) = (1234.56 : Rat) := by
    norm_num [Rat.mkRat_eq_div]
  refine ⟨by rw [h1, h2], rfl, rfl, ?_⟩
  intro s hs
  simp only [parse_price_amount]
  by_cases he : s.isEmpty
  · simp [he]
  · simp only [he, Bool.false_eq_true, if_false]
    rw [firstNumberRun_eq_none hs]

theorem claim_C4_price_parse_witness : parse_price_amount (some "no digits") = none :=
  claim_C4_price_parse.2.2.2 "no digits" (by decide)

/-- C5: with force-tomorrow enabled, or with either date missing (Python-falsy:
`None` or `""`), `ensure_dates` sets check-in to `today + 1` and check-out to
check-in plus `max 1 nights`, regardless of pre-existing dates; with the flag
off and both dates present it returns the config unchanged. -/
theorem claim_C5_ensure_dates (force : Bool) (today : Int) (c : CityCfg) :
    ((force = true ∨ strTruthy c.checkin = false ∨ strTruthy c.checkout = false) →
      (ensure_dates force today c).checkin = some (dayIso (today + 1)) ∧
      (ensure_dates force today c).checkout = some (dayIso (today + 1 + max 1 c.nights))) ∧
    ((force = false ∧ strTruthy c.checkin = true ∧ strTruthy c.checkout = true) →
      ensure_dates force today c = c) := by
  constructor
  · intro h
    have : ensure_dates force today c = force_tomorrow_dates today c := by
      rcases h with h | h | h
      · simp [ensure_dates, h]
      · cases force <;> simp [ensure_dates, h]
      · cases force <;> simp [ensure_dates, h]
    rw [this]
    exact ⟨rfl, rfl⟩
  · rintro ⟨hf, hc1, hc2⟩
    simp [ensure_dates, hf, hc1, hc2]

theorem claim_C5_ensure_dates_witness :
    (ensure_dates true 10 { name := "Bogota", nights := 2 }).checkin = some (dayIso 11) ∧
    (ensure_dates true 10 { name := "Bogota", nights := 2 }).checkout = some (dayIso 13) ∧
    ensure_dates false 10 { name := "Bogota", checkin := some "a", checkout := some "b" }
      = { name := "Bogota", checkin := some "a", checkout := some "b" } := by
  refine ⟨?_, ?_, ?_⟩
  · exact ((claim_C5_ensure_dates true 10 { name := "Bogota", nights := 2 }).1
      (Or.inl rfl)).1
  · exact ((claim_C5_ensure_dates true 10 { name := "Bogota", nights := 2 }).1
      (Or.inl rfl)).2
  · exact (claim_C5_ensure_dates false 10
      { name := "Bogota", checkin := some "a", checkout := some "b" }).2
      ⟨rfl, by decide, by decide⟩

theorem dedupKeepFirst_nil : dedupKeepFirst [] = [] := by
  rw [dedupKeepFirst]

theorem dedupKeepFirst_cons (x : String) (xs : List String) :
    dedupKeepFirst (x :: xs) = x :: dedupKeepFirst (xs.filter (fun y => y != x)) := by
  rw [dedupKeepFirst]

theorem uniqueGo_eq_dedup (l : List String) :
    ∀ seen, uniqueGo seen l
      = dedupKeepFirst (l.filter (fun x => x != "" && !(seen.contains x))) := by
  induction l with
  | nil => intro seen; rw [List.filter_nil, dedupKeepFirst_nil]; rfl
  | cons x xs ih =>
    intro seen
    rw [List.filter_cons]
    by_cases hx : (x != "" && !(seen.contains x)) = true
    · rw [if_pos hx, dedupKeepFirst_cons, List.filter_filter]
      simp only [uniqueGo, hx, if_true]
      rw [ih (x :: seen)]
      congr 1
      congr 1
      apply List.filter_congr
      intro y _
      simp only [List.contains_cons, Bool.not_or, bne]
      cases hyx : y == x <;> cases hys : seen.contains y <;> cases hye : y == "" <;> simp
    · rw [if_neg hx]
      simp only [uniqueGo, hx, if_false]
      exact ih seen

theorem dedupKeepFirst_subset : ∀ l : List String, ∀ a ∈ dedupKeepFirst l, a ∈ l := by
  intro l
  induction l using dedupKeepFirst.induct with
  | case1 =>
    intro a ha
    rw [dedupKeepFirst_nil] at ha
    cases ha
  | case2 x xs ih =>
    intro a ha
    rw [dedupKeepFirst_cons] at ha
    rcases List.mem_cons.mp ha with h | h
    · exact h ▸ List.mem_cons_self _ _
    · exact List.mem_cons_of_mem _ (List.mem_of_mem_filter (ih a h))

/-- C9: `unique_list` drops the falsy elements (the empty string; `None` cannot
inhabit `List String`) and removes duplicates keeping the first occurrence in
order: it equals the spec-side `dedupKeepFirst` of the de-falsied input, and
its output never contains the empty string. -/
theorem claim_C9_unique_list (l : List String) :
    unique_list l = dedupKeepFirst (l.filter (fun x => x != "")) ∧
    "" ∉ unique_list l := by
  have he : unique_list l = dedupKeepFirst (l.filter (fun x => x != "")) := by
    unfold unique_list
    rw [uniqueGo_eq_dedup]
    congr 1
    apply List.filter_congr
    intro y _
    simp [List.contains]
  refine ⟨he, ?_⟩
  intro hmem
  rw [he] at hmem
  have := dedupKeepFirst_subset _ _ hmem
  have := List.of_mem_filter this
  simp at this

/-! ## The local store (src/vrbo_scraper/storage.py)

`LocalDB` keeps a list of target rows, an auto-increment id counter and a
list of result rows.  Target rows are the dicts built by `add_target`
(storage.py lines 34-44); result rows are the dicts built by `save_rental`
(lines 55-61), whose extracted payload is abstracted to a `data` string. -/

structure TargetRow where
  id : Nat
  run_id : Nat
  typ : String
  value : String
  url : String
  status : String
deriving DecidableEq

structure ResultRow where
  url : String
  latitude : Option Int
  longitude : Option Int
  data : String
deriving DecidableEq

structure LocalDB where
  targets : List TargetRow := []
  next_target_id : Nat := 1
  results : List ResultRow := []
deriving DecidableEq

/-- The constant `VRBO_TARGET_TYPE` from config.py. -/
def VRBO_TARGET_TYPE : String := "vrbo_detail"

/-- `LocalDB.add_target`: appends a row with the next id and status "queued";
`url` is `full_url or clean_url` (Python `or`: `None` and `""` are falsy). -/
def LocalDB.add_target (db : LocalDB) (run_id : Nat) (typ clean : String)
    (full : Option String) : LocalDB :=
  let url := match full with
    | some f => if f.isEmpty then clean else f
    | none => clean
  { db with
    targets := db.targets ++ [⟨db.next_target_id, run_id, typ, clean, url, "queued"⟩],
    next_target_id := db.next_target_id + 1 }

/-- `LocalDB.list_targets`: the rows of the run with the given type and status. -/
def LocalDB.list_targets (db : LocalDB) (run_id : Nat) (typ status : String) :
    List TargetRow :=
  db.targets.filter (fun r => r.run_id == run_id && r.typ == typ && r.status == status)

/-- Helper of `update_target_status`: set the status of the first row whose id
matches, leave everything else alone (the loop breaks after the first hit). -/
def updateFirstStatus (tid : Nat) (status : String) : List TargetRow → List TargetRow
  | [] => []
  | r :: rs =>
    if r.id = tid then { r with status := status } :: rs
    else r :: updateFirstStatus tid status rs

/-- `LocalDB.update_target_status` (storage.py lines 49-53). -/
def LocalDB.update_target_status (db : LocalDB) (tid : Nat) (status : String) : LocalDB :=
  { db with targets := updateFirstStatus tid status db.targets }

/-- `LocalDB.save_rental` (storage.py lines 55-61): appends a result row; the
`run_id` argument is accepted and ignored, as in the source. -/
def LocalDB.save_rental (db : LocalDB) (_run_id : Nat) (unique_url : String)
    (data : String) (lat lon : Option Int) : LocalDB :=
  { db with results := db.results ++ [⟨unique_url, lat, lon, data⟩] }

/-- Status of the first stored row with the given id (the row
`update_target_status` acts on). -/
def LocalDB.statusOf (db : LocalDB) (tid : Nat) : Option String :=
  (db.targets.find? (fun r => r.id == tid)).map (fun r => r.status)

/-! ## Theorems for C10 -/

theorem updateFirstStatus_of_no_match (tid : Nat) (st : String) :
    ∀ l : List TargetRow, (∀ r ∈ l, r.id ≠ tid) → updateFirstStatus tid st l = l := by
  intro l
  induction l with
  | nil => intro _; rfl
  | cons r rs ih =>
    intro h
    rw [updateFirstStatus, if_neg (h r (List.mem_cons_self r rs))]
    rw [ih fun r' hr' => h r' (List.mem_cons_of_mem r hr')]

theorem updateFirstStatus_split (tid : Nat) (st : String) :
    ∀ l₁ : List TargetRow, ∀ r : TargetRow, ∀ l₂ : List TargetRow,
      (∀ r' ∈ l₁, r'.id ≠ tid) → r.id = tid →
      updateFirstStatus tid st (l₁ ++ r :: l₂) = l₁ ++ { r with status := st } :: l₂ := by
  intro l₁
  induction l₁ with
  | nil =>
    intro r l₂ _ hr
    simp only [List.nil_append, updateFirstStatus, if_pos hr]
  | cons a l ih =>
    intro r l₂ h1 hr
    simp only [List.cons_append, updateFirstStatus,
      if_neg (h1 a (List.mem_cons_self a l)), List.append_eq]
    rw [ih r l₂ (fun r' hr' => h1 r' (List.mem_cons_of_mem a hr')) hr]

/-- C10: `update_target_status` changes only the status field of the first
stored row whose id matches: results, the id counter, and every other row
(before and after the hit) are unchanged, and with no matching row the store
is left entirely unchanged. -/
theorem claim_C10_update_status_frame (db : LocalDB) (tid : Nat) (st : String) :
    (db.update_target_status tid st).results = db.results ∧
    (db.update_target_status tid st).next_target_id = db.next_target_id ∧
    ((∀ r ∈ db.targets, r.id ≠ tid) → db.update_target_status tid st = db) ∧
    (∀ l₁ r l₂, db.targets = l₁ ++ r :: l₂ → (∀ r' ∈ l₁, r'.id ≠ tid) → r.id = tid →
      (db.update_target_status tid st).targets = l₁ ++ { r with status := st } :: l₂) := by
  refine ⟨rfl, rfl, ?_, ?_⟩
  · intro h
    show ({ db with targets := updateFirstStatus tid st db.targets } : LocalDB) = db
    rw [updateFirstStatus_of_no_match tid st db.targets h]
  · intro l₁ r l₂ hsplit h1 hr
    show updateFirstStatus tid st db.targets = _
    rw [hsplit, updateFirstStatus_split tid st l₁ r l₂ h1 hr]

theorem claim_C10_update_status_frame_witness :
    ((LocalDB.update_target_status
        ⟨[⟨1, 5, "vrbo_detail", "a", "a", "queued"⟩, ⟨2, 5, "vrbo_detail", "b", "b", "queued"⟩],
          3, []⟩ 2 "done").targets
      = [⟨1, 5, "vrbo_detail", "a", "a", "queued"⟩, ⟨2, 5, "vrbo_detail", "b", "b", "done"⟩]) ∧
    (LocalDB.update_target_status
        ⟨[⟨1, 5, "vrbo_detail", "a", "a", "queued"⟩], 2, []⟩ 9 "done"
      = ⟨[⟨1, 5, "vrbo_detail", "a", "a", "queued"⟩], 2, []⟩) := by
  constructor
  · exact (claim_C10_update_status_frame
      ⟨[⟨1, 5, "vrbo_detail", "a", "a", "queued"⟩, ⟨2, 5, "vrbo_detail", "b", "b", "queued"⟩],
        3, []⟩ 2 "done").2.2.2
      [⟨1, 5, "vrbo_detail", "a", "a", "queued"⟩] ⟨2, 5, "vrbo_detail", "b", "b", "queued"⟩ []
      rfl (by decide) rfl
  · exact (claim_C10_update_status_frame
      ⟨[⟨1, 5, "vrbo_detail", "a", "a", "queued"⟩], 2, []⟩ 9 "done").2.2.1 (by decide)

/-! ## Detail-page processing (src/vrbo_scraper/detail.py)

`scrape_detail_page` drives the browser; what it does for one target is
determined by how the target's page behaves, which is an input here:

* `headingNever` — no heading selector matches within the 30-unit wait: the
  `WebDriverWait(...).until(...)` at lines 292-295 raises, the handler at
  lines 296-307 logs (and possibly pauses for a captcha) and the function
  returns `None, None`;
* `success d lat lon` — the page is scraped and lines 341-492 build the
  (never-empty) result dict `d` and the coordinates dict;
* `raises` — some browser call raises and the exception propagates.

`scrape_detail_page` below maps a page behaviour to the returned pair, with
`none` standing for a propagated exception (caught by the caller's
`try/except` at detail.py lines 506-522). -/

inductive ScrapeOutcome where
  | headingNever
  | success (data : String) (lat lon : Option Int)
  | raises
deriving DecidableEq

/-- Outcome of `scrape_detail_page` on a page with the given behaviour:
`none` models a propagated exception, `some (data?, coords?)` a return. -/
def scrape_detail_page (o : ScrapeOutcome) :
    Option (Option String × Option (Option Int × Option Int)) :=
  match o with
  | .headingNever => some (none, none)
  | .success d lat lon => some (some d, some (lat, lon))
  | .raises => none

/-- The for-loop of `process_detail_targets` (detail.py lines 503-522) over
the snapshot list of queued rows.  Besides the updated store it returns the
list of target ids that were scraped, in order.  `behavior` gives each
target's page behaviour, keyed by target id. -/
def processTargets (behavior : Nat → ScrapeOutcome) (run_id : Nat) :
    List TargetRow → LocalDB → LocalDB × List Nat
  | [], db => (db, [])
  | row :: rest, db =>
    match scrape_detail_page (behavior row.id) with
    | none =>
      -- `except Exception`: mark "error", continue with the next target
      let r := processTargets behavior run_id rest (db.update_target_status row.id "error")
      (r.1, row.id :: r.2)
    | some (data, coords) =>
      match data with
      | some d =>
        -- `if data:` — the result dict is never empty, so it is truthy
        let lat := match coords with | some p => p.1 | none => none
        let lon := match coords with | some p => p.2 | none => none
        let db1 := (db.save_rental run_id row.value d lat lon).update_target_status
          row.id "done"
        let r := processTargets behavior run_id rest db1
        (r.1, row.id :: r.2)
      | none =>
        -- the `(None, None)` sentinel: mark "empty", no record
        let r := processTargets behavior run_id rest (db.update_target_status row.id "empty")
        (r.1, row.id :: r.2)

/-- The snapshot `process_detail_targets` iterates over: the queued targets of
the run, truncated when `VRBO_MAX_DETAIL_TARGETS` (here `maxDetail`) is
positive. -/
def pendingTargets (db : LocalDB) (run_id : Nat) (maxDetail : Int) : List TargetRow :=
  let targets := db.list_targets run_id VRBO_TARGET_TYPE "queued"
  if maxDetail > 0 then targets.take maxDetail.toNat else targets

/-- `process_detail_targets` from detail.py (the early return on an empty
snapshot coincides with folding over the empty list). -/
def process_detail_targets (behavior : Nat → ScrapeOutcome) (maxDetail : Int)
    (run_id : Nat) (db : LocalDB) : LocalDB × List Nat :=
  processTargets behavior run_id (pendingTargets db run_id maxDetail) db

/-- Page behaviours that make `process_detail_targets` append a record. -/
def isSuccess : ScrapeOutcome → Bool
  | .success _ _ _ => true
  | _ => false

/-- The status `process_detail_targets` assigns for a page behaviour. -/
def expectedStatus : ScrapeOutcome → String
  | .headingNever => "empty"
  | .success _ _ _ => "done"
  | .raises => "error"

/-- The result row appended for a successfully scraped target. -/
def resultRowOf (behavior : Nat → ScrapeOutcome) (r : TargetRow) : ResultRow :=
  match behavior r.id with
  | .success d lat lon => ⟨r.value, lat, lon, d⟩
  | _ => ⟨r.value, none, none, ""⟩

/-! ### Frame lemmas about the store operations -/

theorem update_targets_map_id (db : LocalDB) (tid : Nat) (st : String) :
    (db.update_target_status tid st).targets.map (fun r => r.id)
      = db.targets.map (fun r => r.id) := by
  show (updateFirstStatus tid st db.targets).map _ = _
  induction db.targets with
  | nil => rfl
  | cons r rs ih =>
    rw [updateFirstStatus]
    by_cases h : r.id = tid
    · rw [if_pos h]; rfl
    · rw [if_neg h, List.map_cons, List.map_cons, ih]

theorem find?_updateFirstStatus_ne (tid tid' : Nat) (st : String) (h : tid' ≠ tid) :
    ∀ l : List TargetRow,
      (updateFirstStatus tid' st l).find? (fun r => r.id == tid)
        = l.find? (fun r => r.id == tid) := by
  intro l
  induction l with
  | nil => rfl
  | cons r rs ih =>
    rw [updateFirstStatus]
    by_cases hr : r.id = tid'
    · rw [if_pos hr]
      have ht : (r.id == tid) = false :=
        beq_eq_false_iff_ne.mpr (fun hc => h (hr ▸ hc))
      rw [List.find?_cons_of_neg _ (by simpa using ht),
        List.find?_cons_of_neg _ (by simpa using ht)]
    · rw [if_neg hr]
      by_cases ht : r.id = tid
      · rw [List.find?_cons_of_pos _ (by simpa using ht),
          List.find?_cons_of_pos _ (by simpa using ht)]
      · rw [List.find?_cons_of_neg _ (by simpa using ht),
          List.find?_cons_of_neg _ (by simpa using ht), ih]

theorem statusOf_update_ne (db : LocalDB) (tid tid' : Nat) (st : String)
    (h : tid' ≠ tid) :
    (db.update_target_status tid' st).statusOf tid = db.statusOf tid := by
  show ((updateFirstStatus tid' st db.targets).find? _).map _ = _
  rw [find?_updateFirstStatus_ne tid tid' st h db.targets]
  rfl

theorem find?_updateFirstStatus_self (tid : Nat) (st : String) :
    ∀ l : List TargetRow, tid ∈ l.map (fun r => r.id) →
      ((updateFirstStatus tid st l).find? (fun r => r.id == tid)).map (fun r => r.status)
        = some st := by
  intro l
  induction l with
  | nil => intro h; cases h
  | cons r rs ih =>
    intro hmem
    rw [updateFirstStatus]
    by_cases hr : r.id = tid
    · rw [if_pos hr]
      rw [List.find?_cons_of_pos _ (by simpa using hr)]
      rfl
    · rw [if_neg hr]
      rw [List.find?_cons_of_neg _ (by simpa using hr)]
      apply ih
      rcases List.mem_map.mp hmem with ⟨r', hr', he⟩
      rcases List.mem_cons.mp hr' with h | h
      · exact absurd (h ▸ he) hr
      · exact List.mem_map.mpr ⟨r', h, he⟩

theorem statusOf_update_self (db : LocalDB) (tid : Nat) (st : String)
    (h : tid ∈ db.targets.map (fun r => r.id)) :
    (db.update_target_status tid st).statusOf tid = some st := by
  show ((updateFirstStatus tid st db.targets).find? _).map _ = _
  exact find?_updateFirstStatus_self tid st db.targets h

theorem statusOf_save_rental (db : LocalDB) (rid : Nat) (u d : String)
    (lat lon : Option Int) (tid : Nat) :
    (db.save_rental rid u d lat lon).statusOf tid = db.statusOf tid := rfl

theorem save_rental_targets (db : LocalDB) (rid : Nat) (u d : String)
    (lat lon : Option Int) :
    (db.save_rental rid u d lat lon).targets = db.targets := rfl

theorem update_results (db : LocalDB) (tid : Nat) (st : String) :
    (db.update_target_status tid st).results = db.results := rfl

/-! ### Behaviour of the processing loop -/

theorem processTargets_attempts (behavior : Nat → ScrapeOutcome) (run_id : Nat) :
    ∀ rows : List TargetRow, ∀ db : LocalDB,
      (processTargets behavior run_id rows db).2 = rows.map (fun r => r.id) := by
  intro rows
  induction rows with
  | nil => intro db; rfl
  | cons row rest ih =>
    intro db
    rw [processTargets]
    cases hb : scrape_detail_page (behavior row.id) with
    | none => simp only [ih, List.map_cons]
    | some p =>
      rcases p with ⟨data, coords⟩
      cases data with
      | some d => simp only [ih, List.map_cons]
      | none => simp only [ih, List.map_cons]

theorem processTargets_statusOf_not_mem (behavior : Nat → ScrapeOutcome) (run_id : Nat) :
    ∀ rows : List TargetRow, ∀ db : LocalDB, ∀ tid : Nat,
      tid ∉ rows.map (fun r => r.id) →
      (processTargets behavior run_id rows db).1.statusOf tid = db.statusOf tid := by
  intro rows
  induction rows with
  | nil => intro db tid _; rfl
  | cons row rest ih =>
    intro db tid hmem
    have hne : row.id ≠ tid := fun h =>
      hmem (h ▸ List.mem_map.mpr ⟨row, List.mem_cons_self _ _, rfl⟩)
    have hrest : tid ∉ rest.map (fun r => r.id) := fun h =>
      hmem (List.map_cons (fun r => r.id) row rest ▸ List.mem_cons_of_mem _ h)
    rw [processTargets]
    cases hb : scrape_detail_page (behavior row.id) with
    | none =>
      rw [ih (db.update_target_status row.id "error") tid hrest]
      exact statusOf_update_ne db tid row.id "error" hne
    | some p =>
      rcases p with ⟨data, coords⟩
      cases data with
      | some d =>
        rw [ih _ tid hrest]
        exact statusOf_update_ne _ tid row.id "done" hne
      | none =>
        rw [ih (db.update_target_status row.id "empty") tid hrest]
        exact statusOf_update_ne db tid row.id "empty" hne

theorem targets_map_id_update (db : LocalDB) (tid : Nat) (st : String) :
    (db.update_target_status tid st).targets.map (fun r => r.id)
      = db.targets.map (fun r => r.id) := update_targets_map_id db tid st

theorem processTargets_statusOf_mem (behavior : Nat → ScrapeOutcome) (run_id : Nat) :
    ∀ rows : List TargetRow, ∀ db : LocalDB, ∀ row : TargetRow,
      (rows.map (fun r => r.id)).Nodup →
      row ∈ rows →
      row.id ∈ db.targets.map (fun r => r.id) →
      (processTargets behavior run_id rows db).1.statusOf row.id
        = some (expectedStatus (behavior row.id)) := by
  intro rows
  induction rows with
  | nil => intro db row _ hmem _; cases hmem
  | cons hd rest ih =>
    intro db row hnodup hmem hin
    have hnodup' : (rest.map (fun r => r.id)).Nodup :=
      (List.nodup_cons.mp (by simpa using hnodup)).2
    rcases List.mem_cons.mp hmem with heq | hmem'
    · subst heq
      have hnot : row.id ∉ rest.map (fun r => r.id) :=
        (List.nodup_cons.mp (by simpa using hnodup)).1
      rw [processTargets]
      cases hb : scrape_detail_page (behavior row.id) with
      | none =>
        have : behavior row.id = .raises := by
          cases hx : behavior row.id <;> simp [scrape_detail_page, hx] at hb ⊢
        rw [processTargets_statusOf_not_mem behavior run_id rest _ row.id hnot]
        rw [statusOf_update_self db row.id "error" hin, this]
        rfl
      | some p =>
        rcases p with ⟨data, coords⟩
        cases data with
        | some d =>
          have : expectedStatus (behavior row.id) = "done" := by
            cases hx : behavior row.id <;> simp [scrape_detail_page, hx] at hb ⊢ <;> rfl
          rw [processTargets_statusOf_not_mem behavior run_id rest _ row.id hnot]
          rw [statusOf_update_self _ row.id "done"
            (by rw [save_rental_targets]; exact hin), this]
        | none =>
          have : expectedStatus (behavior row.id) = "empty" := by
            cases hx : behavior row.id <;> simp [scrape_detail_page, hx] at hb ⊢ <;> rfl
          rw [processTargets_statusOf_not_mem behavior run_id rest _ row.id hnot]
          rw [statusOf_update_self db row.id "empty" hin, this]
    · rw [processTargets]
      have hin' : ∀ db' : LocalDB,
          db'.targets.map (fun r => r.id) = db.targets.map (fun r => r.id) →
          row.id ∈ db'.targets.map (fun r => r.id) := fun db' he => he ▸ hin
      cases hb : scrape_detail_page (behavior hd.id) with
      | none =>
        exact ih _ row hnodup' hmem'
          (hin' _ (targets_map_id_update db hd.id "error"))
      | some p =>
        rcases p with ⟨data, coords⟩
        cases data with
        | some d =>
          exact ih _ row hnodup' hmem'
            (hin' _ (by rw [targets_map_id_update, save_rental_targets]))
        | none =>
          exact ih _ row hnodup' hmem'
            (hin' _ (targets_map_id_update db hd.id "empty"))

theorem processTargets_results (behavior : Nat → ScrapeOutcome) (run_id : Nat) :
    ∀ rows : List TargetRow, ∀ db : LocalDB,
      (processTargets behavior run_id rows db).1.results
        = db.results
          ++ (rows.filter (fun r => isSuccess (behavior r.id))).map (resultRowOf behavior) := by
  intro rows
  induction rows with
  | nil => intro db; rw [List.filter_nil, List.map_nil, List.append_nil]; rfl
  | cons row rest ih =>
    intro db
    rw [processTargets, List.filter_cons]
    cases hb : behavior row.id with
    | raises =>
      rw [if_neg (by decide)]
      show (processTargets behavior run_id rest
        (db.update_target_status row.id "error")).1.results = _
      rw [ih, update_results]
    | headingNever =>
      rw [if_neg (by decide)]
      show (processTargets behavior run_id rest
        (db.update_target_status row.id "empty")).1.results = _
      rw [ih, update_results]
    | success d lat lon =>
      have hres : resultRowOf behavior row = ⟨row.value, lat, lon, d⟩ := by
        simp only [resultRowOf, hb]
      rw [if_pos (show isSuccess (ScrapeOutcome.success d lat lon) = true from rfl)]
      show (processTargets behavior run_id rest
        ((db.save_rental run_id row.value d lat lon).update_target_status
          row.id "done")).1.results = _
      rw [ih, update_results, List.map_cons, hres]
      show db.results ++ [⟨row.value, lat, lon, d⟩] ++ _ = _
      rw [List.append_assoc]
      rfl

theorem pendingTargets_sublist (db : LocalDB) (run_id : Nat) (maxDetail : Int) :
    (pendingTargets db run_id maxDetail).Sublist db.targets := by
  unfold pendingTargets LocalDB.list_targets
  by_cases h : maxDetail > 0
  · rw [if_pos h]
    exact (List.take_sublist _ _).trans (List.filter_sublist _)
  · rw [if_neg h]
    exact List.filter_sublist _

theorem pendingTargets_id_nodup (db : LocalDB) (run_id : Nat) (maxDetail : Int)
    (h : (db.targets.map (fun r => r.id)).Nodup) :
    ((pendingTargets db run_id maxDetail).map (fun r => r.id)).Nodup :=
  h.sublist ((pendingTargets_sublist db run_id maxDetail).map (fun r => r.id))

theorem pendingTargets_mem_id (db : LocalDB) (run_id : Nat) (maxDetail : Int)
    (row : TargetRow) (h : row ∈ pendingTargets db run_id maxDetail) :
    row.id ∈ db.targets.map (fun r => r.id) :=
  List.mem_map.mpr ⟨row, (pendingTargets_sublist db run_id maxDetail).subset h, rfl⟩

/-- C3: when a detail page's heading never appears within the wait,
`scrape_detail_page` returns the sentinel pair `(None, None)` instead of
raising, and `process_detail_targets` marks that target "empty" (not "error")
and appends no record for it: every appended record comes from a target whose
page behaviour was a success, which a heading-less page is not.  (The store's
ids are pairwise distinct — they are assigned by the auto-increment counter —
and the target must be in the processed snapshot.) -/
theorem claim_C3_heading_never_empty (behavior : Nat → ScrapeOutcome) (maxDetail : Int)
    (run_id : Nat) (db : LocalDB) (row : TargetRow)
    (hnodup : (db.targets.map (fun r => r.id)).Nodup)
    (hrow : row ∈ pendingTargets db run_id maxDetail)
    (hb : behavior row.id = ScrapeOutcome.headingNever) :
    scrape_detail_page ScrapeOutcome.headingNever = some (none, none) ∧
    (process_detail_targets behavior maxDetail run_id db).1.statusOf row.id = some "empty" ∧
    (process_detail_targets behavior maxDetail run_id db).1.results
      = db.results ++ ((pendingTargets db run_id maxDetail).filter
          (fun r => isSuccess (behavior r.id))).map (resultRowOf behavior) ∧
    isSuccess (behavior row.id) = false := by
  refine ⟨rfl, ?_, ?_, ?_⟩
  · have := processTargets_statusOf_mem behavior run_id
      (pendingTargets db run_id maxDetail) db row
      (pendingTargets_id_nodup db run_id maxDetail hnodup) hrow
      (pendingTargets_mem_id db run_id maxDetail row hrow)
    rw [hb] at this
    exact this
  · exact processTargets_results behavior run_id (pendingTargets db run_id maxDetail) db
  · rw [hb]; rfl

theorem claim_C3_heading_never_empty_witness :
    (process_detail_targets (fun _ => ScrapeOutcome.headingNever) 0 5
        ⟨[⟨1, 5, "vrbo_detail", "u", "u", "queued"⟩], 2, []⟩).1.statusOf 1 = some "empty" ∧
    (process_detail_targets (fun _ => ScrapeOutcome.headingNever) 0 5
        ⟨[⟨1, 5, "vrbo_detail", "u", "u", "queued"⟩], 2, []⟩).1.results = [] := by
  have h := claim_C3_heading_never_empty (fun _ => ScrapeOutcome.headingNever) 0 5
    ⟨[⟨1, 5, "vrbo_detail", "u", "u", "queued"⟩], 2, []⟩
    ⟨1, 5, "vrbo_detail", "u", "u", "queued"⟩
    (by decide) (by decide) rfl
  refine ⟨h.2.1, ?_⟩
  rw [h.2.2.1]
  decide

/-- C8: an exception while scraping one queued target marks exactly that
target "error", appends no record for it, and the loop still visits every
snapshot target exactly once (no retry, and processing continues past the
failure: the list of scraped ids is the full snapshot in order, in which the
failing target occurs exactly once). -/
theorem claim_C8_exception_isolation (behavior : Nat → ScrapeOutcome) (maxDetail : Int)
    (run_id : Nat) (db : LocalDB) (row : TargetRow)
    (hnodup : (db.targets.map (fun r => r.id)).Nodup)
    (hrow : row ∈ pendingTargets db run_id maxDetail)
    (hb : behavior row.id = ScrapeOutcome.raises) :
    (process_detail_targets behavior maxDetail run_id db).1.statusOf row.id = some "error" ∧
    (process_detail_targets behavior maxDetail run_id db).1.results
      = db.results ++ ((pendingTargets db run_id maxDetail).filter
          (fun r => isSuccess (behavior r.id))).map (resultRowOf behavior) ∧
    isSuccess (behavior row.id) = false ∧
    (process_detail_targets behavior maxDetail run_id db).2
      = (pendingTargets db run_id maxDetail).map (fun r => r.id) ∧
    ((process_detail_targets behavior maxDetail run_id db).2).count row.id = 1 := by
  have hatt : (process_detail_targets behavior maxDetail run_id db).2
      = (pendingTargets db run_id maxDetail).map (fun r => r.id) :=
    processTargets_attempts behavior run_id (pendingTargets db run_id maxDetail) db
  refine ⟨?_, ?_, ?_, hatt, ?_⟩
  · have := processTargets_statusOf_mem behavior run_id
      (pendingTargets db run_id maxDetail) db row
      (pendingTargets_id_nodup db run_id maxDetail hnodup) hrow
      (pendingTargets_mem_id db run_id maxDetail row hrow)
    rw [hb] at this
    exact this
  · exact processTargets_results behavior run_id (pendingTargets db run_id maxDetail) db
  · rw [hb]; rfl
  · rw [hatt]
    exact List.count_eq_one_of_mem
      (pendingTargets_id_nodup db run_id maxDetail hnodup)
      (List.mem_map.mpr ⟨row, hrow, rfl⟩)

theorem claim_C8_exception_isolation_witness :
    (process_detail_targets (fun i => if i = 1 then ScrapeOutcome.raises
        else ScrapeOutcome.success "d" none none) 0 5
        ⟨[⟨1, 5, "vrbo_detail", "u", "u", "queued"⟩,
          ⟨2, 5, "vrbo_detail", "v", "v", "queued"⟩], 3, []⟩).1.statusOf 1 = some "error" ∧
    (process_detail_targets (fun i => if i = 1 then ScrapeOutcome.raises
        else ScrapeOutcome.success "d" none none) 0 5
        ⟨[⟨1, 5, "vrbo_detail", "u", "u", "queued"⟩,
          ⟨2, 5, "vrbo_detail", "v", "v", "queued"⟩], 3, []⟩).2 = [1, 2] := by
  have h := claim_C8_exception_isolation
    (fun i => if i = 1 then ScrapeOutcome.raises else ScrapeOutcome.success "d" none none) 0 5
    ⟨[⟨1, 5, "vrbo_detail", "u", "u", "queued"⟩,
      ⟨2, 5, "vrbo_detail", "v", "v", "queued"⟩], 3, []⟩
    ⟨1, 5, "vrbo_detail", "u", "u", "queued"⟩
    (by decide) (by decide) rfl
  refine ⟨h.1, ?_⟩
  rw [h.2.2.2.1]
  decide

/-! ## Search-phase discovery (src/vrbo_scraper/search.py)

The pagination loop of `run_city` (lines 193-220) reads the driver once per
iteration: `extract_cards` yields a list of cards (line 195), `is_blocked` a
boolean (lines 198, 177-179) and `click_next` a boolean (line 216).  One
iteration of the loop is therefore described by one `PageObs` value, and a
run consumes a list of them in order.  A `Card` is the dict built by
`extract_cards` (line 119); only `url` (the cleaned href) and `full_url`
matter to the loop. -/

structure Card where
  url : Option String
  full_url : Option String
deriving DecidableEq

structure PageObs where
  /-- What `extract_cards(driver)` returns on this view of the page. -/
  cards : List Card
  /-- What `is_blocked(driver)` would return on this view. -/
  blocked : Bool
  /-- What `click_next(driver)` would return on this view. -/
  nextOk : Bool
deriving DecidableEq

inductive StopReason where
  /-- line 202: no visible cards and the block check came back negative. -/
  | noCards
  /-- line 213: cards were visible but none added a new target. -/
  | zeroNew
  /-- line 215: the configured page limit was reached. -/
  | maxPagesReached
  /-- line 218: no next-page control was found or clickable. -/
  | nextUnavailable
  /-- artefact of the finite observation list (a real driver always shows a
  next page once `click_next` succeeded); unreachable in the runs below. -/
  | outOfObservations
deriving DecidableEq

structure SearchOutcome where
  db : LocalDB
  seen : List String
  /-- `page_num` at the moment the loop stopped. -/
  page : Nat
  reason : StopReason
  /-- whether `is_blocked` was consulted on the stopping iteration. -/
  blockCheckedAtStop : Bool
  /-- `new_count` of the stopping iteration (0 for the no-cards stop). -/
  newOnLastPage : Nat
deriving DecidableEq

/-- The inner card loop of `run_city` (lines 204-209): register each truthy,
not-yet-seen cleaned url as a queued target, count the new ones. -/
def processCards (run_id : Nat) : List Card → LocalDB → List String →
    LocalDB × List String × Nat
  | [], db, seen => (db, seen, 0)
  | c :: cs, db, seen =>
    match c.url with
    | some u =>
      if u != "" && !(seen.contains u) then
        let r := processCards run_id cs
          (db.add_target run_id VRBO_TARGET_TYPE u c.full_url) (u :: seen)
        (r.1, r.2.1, r.2.2 + 1)
      else processCards run_id cs db seen
    | none => processCards run_id cs db seen

/-- The `while True` pagination loop of `run_city` (lines 193-220).
`maxPages` is `VRBO_MAX_PAGES`.  A blocked page with no cards pauses for a
captcha and re-reads the page (`continue`), consuming the next observation. -/
def runCityLoop (run_id : Nat) (maxPages : Int) :
    List PageObs → LocalDB → List String → Nat → SearchOutcome
  | [], db, seen, page => ⟨db, seen, page, .outOfObservations, false, 0⟩
  | o :: rest, db, seen, page =>
    if o.cards.isEmpty then
      if o.blocked then runCityLoop run_id maxPages rest db seen page
      else ⟨db, seen, page, .noCards, true, 0⟩
    else
      let r := processCards run_id o.cards db seen
      if r.2.2 = 0 then ⟨r.1, r.2.1, page, .zeroNew, false, 0⟩
      else if maxPages > 0 ∧ maxPages ≤ (page : Int) then
        ⟨r.1, r.2.1, page, .maxPagesReached, false, r.2.2⟩
      else if !o.nextOk then ⟨r.1, r.2.1, page, .nextUnavailable, false, r.2.2⟩
      else runCityLoop run_id maxPages rest r.1 r.2.1 (page + 1)

/-- `run_city` (discovery part): the loop starts with a fresh `seen` set and
`page_num = 1`.  The entry navigation and its pre-loop block check do not
touch the store or the seen set. -/
def run_city (run_id : Nat) (maxPages : Int) (obs : List PageObs) (db : LocalDB) :
    SearchOutcome :=
  runCityLoop run_id maxPages obs db [] 1

/-- The search phase of `main` (runner.py lines 28-29): `run_city` is called
for each city in turn, with the same store and run id. -/
def mainSearchPhase (run_id : Nat) (maxPages : Int) (cities : List (List PageObs))
    (db : LocalDB) : LocalDB :=
  cities.foldl (fun d o => (run_city run_id maxPages o d).db) db

/-! ### Discovery invariant: within one `run_city` call, added targets have
pairwise distinct normalized urls -/

/-- Step invariant: going from `(dbOld, seenOld)` to `(dbNew, seenNew)`, some
rows were appended whose normalized urls are pairwise distinct, were not in
the old seen set, and are in the new one; the seen set only grows. -/
def addsInv (dbOld : LocalDB) (seenOld : List String) (dbNew : LocalDB)
    (seenNew : List String) : Prop :=
  ∃ new : List TargetRow,
    dbNew.targets = dbOld.targets ++ new ∧
    (new.map (fun t => t.value)).Nodup ∧
    (∀ v ∈ new.map (fun t => t.value), v ∉ seenOld ∧ v ∈ seenNew) ∧
    (∀ v ∈ seenOld, v ∈ seenNew)

theorem addsInv_refl (db : LocalDB) (seen : List String) : addsInv db seen db seen :=
  ⟨[], (List.append_nil _).symm, List.nodup_nil, fun v hv => absurd hv (List.not_mem_nil v),
    fun _ hv => hv⟩

theorem addsInv_trans {a : LocalDB} {sa : List String} {b : LocalDB} {sb : List String}
    {c : LocalDB} {sc : List String}
    (h1 : addsInv a sa b sb) (h2 : addsInv b sb c sc) : addsInv a sa c sc := by
  obtain ⟨n1, ht1, hn1, hin1, hmono1⟩ := h1
  obtain ⟨n2, ht2, hn2, hin2, hmono2⟩ := h2
  refine ⟨n1 ++ n2, ?_, ?_, ?_, fun v hv => hmono2 v (hmono1 v hv)⟩
  · rw [ht2, ht1, List.append_assoc]
  · rw [List.map_append]
    refine hn1.append hn2 ?_
    intro v hv1 hv2
    exact ((hin2 v hv2).1 ((hin1 v hv1).2)).elim
  · rw [List.map_append]
    intro v hv
    rcases List.mem_append.mp hv with h | h
    · exact ⟨(hin1 v h).1, hmono2 v (hin1 v h).2⟩
    · exact ⟨fun hs => (hin2 v h).1 (hmono1 v hs), (hin2 v h).2⟩

theorem processCards_adds (run_id : Nat) :
    ∀ cards : List Card, ∀ db : LocalDB, ∀ seen : List String,
      addsInv db seen (processCards run_id cards db seen).1
        (processCards run_id cards db seen).2.1 := by
  intro cards
  induction cards with
  | nil => intro db seen; exact addsInv_refl db seen
  | cons c cs ih =>
    intro db seen
    rw [processCards]
    cases hu : c.url with
    | none => exact ih db seen
    | some u =>
      dsimp only
      by_cases hc : (u != "" && !(seen.contains u)) = true
      · rw [if_pos hc]
        have hstep : addsInv db seen (db.add_target run_id VRBO_TARGET_TYPE u c.full_url)
            (u :: seen) := by
          refine ⟨[⟨db.next_target_id, run_id, VRBO_TARGET_TYPE, u,
              (match c.full_url with
                | some f => if f.isEmpty then u else f
                | none => u), "queued"⟩], rfl, List.nodup_singleton _, ?_, ?_⟩
          · intro v hv
            rw [List.map_singleton, List.mem_singleton] at hv
            rw [hv]
            have hnc : ¬ seen.contains u = true := by
              intro hcon
              rw [hcon] at hc
              simp at hc
            constructor
            · intro hmem
              exact hnc (List.elem_iff.mpr hmem)
            · exact List.mem_cons_self u seen
          · intro v hv
            exact List.mem_cons_of_mem u hv
        exact addsInv_trans hstep (ih _ (u :: seen))
      · rw [if_neg hc]
        exact ih db seen

theorem runCityLoop_adds (run_id : Nat) (maxPages : Int) :
    ∀ obs : List PageObs, ∀ db : LocalDB, ∀ seen : List String, ∀ page : Nat,
      addsInv db seen (runCityLoop run_id maxPages obs db seen page).db
        (runCityLoop run_id maxPages obs db seen page).seen := by
  intro obs
  induction obs with
  | nil => intro db seen page; exact addsInv_refl db seen
  | cons o rest ih =>
    intro db seen page
    rw [runCityLoop]
    by_cases hc : o.cards.isEmpty
    · rw [if_pos hc]
      cases hb : o.blocked with
      | true => exact ih db seen page
      | false => exact addsInv_refl db seen
    · rw [if_neg hc]
      have hpc := processCards_adds run_id o.cards db seen
      by_cases h0 : (processCards run_id o.cards db seen).2.2 = 0
      · rw [if_pos h0]; exact hpc
      · rw [if_neg h0]
        by_cases hm : maxPages > 0 ∧ maxPages ≤ (page : Int)
        · rw [if_pos hm]; exact hpc
        · rw [if_neg hm]
          by_cases hn : (!o.nextOk) = true
          · rw [if_pos hn]; exact hpc
          · rw [if_neg hn]
            exact addsInv_trans hpc (ih _ _ (page + 1))

/-- C1 (amended): within one `run_city` call the normalized url is a dedup
key: the call only appends target rows, and the appended rows' normalized
urls are pairwise distinct.  (As stated for a whole run the claim fails: the
`seen` set is re-created per city, see the counterexample.) -/
theorem claim_C1_city_urls_distinct (run_id : Nat) (maxPages : Int)
    (obs : List PageObs) (db : LocalDB) :
    (run_city run_id maxPages obs db).db.targets.take db.targets.length = db.targets ∧
    ((((run_city run_id maxPages obs db).db.targets.drop db.targets.length).map
      (fun t => t.value)).Nodup) := by
  obtain ⟨new, ht, hn, _, _⟩ := runCityLoop_adds run_id maxPages obs db [] 1
  constructor
  · rw [show (run_city run_id maxPages obs db).db
      = (runCityLoop run_id maxPages obs db [] 1).db from rfl, ht, List.take_left]
  · rw [show (run_city run_id maxPages obs db).db
      = (runCityLoop run_id maxPages obs db [] 1).db from rfl, ht, List.drop_left]
    exact hn

/-- C1 counterexample: the dedup `seen` set lives inside `run_city`, so it is
per city, not per run.  With two cities whose search pages show the same
listing, `main`'s search phase stores two targets with the same run id and
the same normalized url — the claim's per-run uniqueness is violated. -/
theorem claim_C1_counterexample :
    (mainSearchPhase 7 1
        [[⟨[⟨some "https://www.vrbo.com/p1", some "https://www.vrbo.com/p1?x=1"⟩], false, true⟩],
         [⟨[⟨some "https://www.vrbo.com/p1", some "https://www.vrbo.com/p1?x=1"⟩], false, true⟩]]
        ⟨[], 1, []⟩).targets.map (fun t => (t.id, t.run_id, t.value))
      = [(1, 7, "https://www.vrbo.com/p1"), (2, 7, "https://www.vrbo.com/p1")] := by
  decide

/-! ### Pagination stop conditions (C2) -/

/-- Five cards with distinct normalized urls, as a search page would show. -/
def scenarioCards : List Card :=
  [⟨some "https://www.vrbo.com/p1", none⟩, ⟨some "https://www.vrbo.com/p2", none⟩,
   ⟨some "https://www.vrbo.com/p3", none⟩, ⟨some "https://www.vrbo.com/p4", none⟩,
   ⟨some "https://www.vrbo.com/p5", none⟩]

/-- Scenario B: page 1 shows five new cards, page 2 repeats them (0 new). -/
def scenarioObs : List PageObs :=
  [⟨scenarioCards, false, true⟩, ⟨scenarioCards, false, true⟩]

/-- C2 (amended): the loop stops on zero new targets, on the page limit
(which is sound: a `maxPagesReached` stop implies the limit was positive and
reached), or on a missing next control; scenario B records exactly 5 queued
targets and stops after page 2 with the zero-new reason.  The block-page
false-negative check before stopping happens exactly in the no-visible-cards
stop, not in the cards-all-duplicates stop (see the counterexample). -/
theorem claim_C2_pagination :
    ((run_city 3 0 scenarioObs ⟨[], 1, []⟩).db.targets.map (fun t => (t.value, t.status))
      = [("https://www.vrbo.com/p1", "queued"), ("https://www.vrbo.com/p2", "queued"),
         ("https://www.vrbo.com/p3", "queued"), ("https://www.vrbo.com/p4", "queued"),
         ("https://www.vrbo.com/p5", "queued")] ∧
     (run_city 3 0 scenarioObs ⟨[], 1, []⟩).page = 2 ∧
     (run_city 3 0 scenarioObs ⟨[], 1, []⟩).reason = StopReason.zeroNew) ∧
    (∀ rid : Nat, ∀ mp : Int, ∀ obs : List PageObs, ∀ db : LocalDB,
      ∀ seen : List String, ∀ page : Nat,
      (runCityLoop rid mp obs db seen page).blockCheckedAtStop = true
        ↔ (runCityLoop rid mp obs db seen page).reason = StopReason.noCards) ∧
    (∀ rid : Nat, ∀ mp : Int, ∀ obs : List PageObs, ∀ db : LocalDB,
      ∀ seen : List String, ∀ page : Nat,
      (runCityLoop rid mp obs db seen page).reason = StopReason.maxPagesReached →
        mp > 0 ∧ mp ≤ ((runCityLoop rid mp obs db seen page).page : Int)) := by
  refine ⟨by decide, ?_, ?_⟩
  · intro rid mp obs
    induction obs with
    | nil => intro db seen page; rw [runCityLoop]; simp
    | cons o rest ih =>
      intro db seen page
      rw [runCityLoop]
      by_cases hc : o.cards.isEmpty
      · rw [if_pos hc]
        cases o.blocked with
        | true => exact ih db seen page
        | false => simp
      · rw [if_neg hc]
        by_cases h0 : (processCards rid o.cards db seen).2.2 = 0
        · rw [if_pos h0]; simp
        · rw [if_neg h0]
          by_cases hm : mp > 0 ∧ mp ≤ (page : Int)
          · rw [if_pos hm]; simp
          · rw [if_neg hm]
            by_cases hn : (!o.nextOk) = true
            · rw [if_pos hn]; simp
            · rw [if_neg hn]
              exact ih _ _ (page + 1)
  · intro rid mp obs
    induction obs with
    | nil =>
      intro db seen page h
      rw [runCityLoop] at h
      cases h
    | cons o rest ih =>
      intro db seen page
      rw [runCityLoop]
      by_cases hc : o.cards.isEmpty
      · rw [if_pos hc]
        cases o.blocked with
        | true => exact ih db seen page
        | false => intro h; cases h
      · rw [if_neg hc]
        by_cases h0 : (processCards rid o.cards db seen).2.2 = 0
        · rw [if_pos h0]; intro h; cases h
        · rw [if_neg h0]
          by_cases hm : mp > 0 ∧ mp ≤ (page : Int)
          · rw [if_pos hm]; intro _; exact hm
          · rw [if_neg hm]
            by_cases hn : (!o.nextOk) = true
            · rw [if_pos hn]; intro h; cases h
            · rw [if_neg hn]
              exact ih _ _ (page + 1)

theorem claim_C2_pagination_witness :
    (0 : Int) < 1 ∧
    (1 : Int) ≤ (((runCityLoop 3 1 [⟨scenarioCards, false, true⟩] ⟨[], 1, []⟩ [] 1).page : Nat) : Int) :=
  claim_C2_pagination.2.2 3 1 [⟨scenarioCards, false, true⟩] ⟨[], 1, []⟩ [] 1 (by decide)

/-- C2 counterexample: when a page shows cards but none of them is new, the
loop stops (zero-new) without consulting `is_blocked` — the claimed
block-page false-negative check before stopping is only performed in the
no-visible-cards stop (search.py lines 196-202 versus lines 211-213). -/
theorem claim_C2_counterexample :
    (run_city 3 0 [⟨[⟨some "https://www.vrbo.com/p1", none⟩], false, true⟩,
                   ⟨[⟨some "https://www.vrbo.com/p1", none⟩], false, true⟩]
        ⟨[], 1, []⟩).reason = StopReason.zeroNew ∧
    (run_city 3 0 [⟨[⟨some "https://www.vrbo.com/p1", none⟩], false, true⟩,
                   ⟨[⟨some "https://www.vrbo.com/p1", none⟩], false, true⟩]
        ⟨[], 1, []⟩).blockCheckedAtStop = false := by
  decide

/-! ## URL parsing: model of CPython 3.11 `urllib.parse` on `List Char`

`clean_url` and `build_entry_url` call `urlparse` / `urlunparse`; this section
models those library functions.  Notes on the embedding:

* `urlsplit` left-strips C0 controls and spaces, removes tab/CR/LF
  everywhere, recognizes `scheme:` only when the first character is an ASCII
  letter and all are in `scheme_chars`, splits `//netloc` at the first of
  `/?#`, then the fragment at the first `#`, then the query at the first `?`.
* It raises `ValueError` for a netloc containing `[` without `]` or vice
  versa, and for a malformed bracketed host; failure is `none` here.  The
  exact `ipaddress`-based validation of bracketed IPv6 hosts, and the NFKC
  check of non-ASCII netlocs, are approximated (`bracketedHostOk`, and the
  NFKC check as always passing); no claim involves such netlocs.
* `urlparse` additionally splits `;params` off the path (after the last `/`)
  when the scheme uses params.
* Python's ASCII character predicates are defined on code points here
  (`str.isalpha` under an `isascii()` guard is `asciiAlpha`; `str.lower` on
  ASCII input is `lowerAscii`). -/

def asciiAlpha (c : Char) : Bool :=
  (65 ≤ c.toNat && c.toNat ≤ 90) || (97 ≤ c.toNat && c.toNat ≤ 122)

def asciiDigit (c : Char) : Bool := 48 ≤ c.toNat && c.toNat ≤ 57

/-- Characters removed everywhere by `urlsplit` (`_UNSAFE_URL_BYTES_TO_REMOVE`). -/
def unsafeChar (c : Char) : Bool := c = '\t' || c = '\r' || c = '\n'

/-- `_WHATWG_C0_CONTROL_OR_SPACE` membership. -/
def c0OrSpace (c : Char) : Bool := c.toNat ≤ 32

/-- Membership in `scheme_chars`. -/
def schemeChar (c : Char) : Bool :=
  asciiAlpha c || asciiDigit c || c = '+' || c = '-' || c = '.'

/-- The delimiters `_splitnetloc` stops at. -/
def netlocDelim (c : Char) : Bool := c = '/' || c = '?' || c = '#'

def headIsAlpha : List Char → Bool
  | [] => false
  | c :: _ => asciiAlpha c

/-- `str.lower` on the ASCII range (schemes are validated ASCII before being
lowered, so the identity on other characters is exact here). -/
def lowerAscii (c : Char) : Char :=
  if 65 ≤ c.toNat && c.toNat ≤ 90 then Char.ofNat (c.toNat + 32) else c

/-- Scheme recognition of `urlsplit`: `url[:i]` before the first `:` when it
is nonempty, starts with an ASCII letter and is all `scheme_chars`. -/
def splitScheme (l : List Char) : List Char × List Char :=
  let pre := l.takeWhile (fun c => c != ':')
  if decide (pre.length < l.length) && !pre.isEmpty && headIsAlpha pre
      && pre.all schemeChar then
    (pre.map lowerAscii, l.drop (pre.length + 1))
  else ([], l)

/-- `str.split(d, 1)` combined with the `if d in url` guard: when `d` occurs,
the part before its first occurrence and the part after; otherwise the whole
string and `[]`. -/
def splitOnceAt (d : Char) (l : List Char) : List Char × List Char :=
  let pre := l.takeWhile (fun c => c != d)
  if decide (pre.length < l.length) then (pre, l.drop (pre.length + 1)) else (l, [])

def hexChar (c : Char) : Bool :=
  asciiDigit c || (97 ≤ c.toNat && c.toNat ≤ 102) || (65 ≤ c.toNat && c.toNat ≤ 70)

/-- `netloc.partition('[')[2].partition(']')[0]`. -/
def bracketedPart (n : List Char) : List Char :=
  ((n.dropWhile (fun c => c != '[')).drop 1).takeWhile (fun c => c != ']')

/-- Model of `_check_bracketed_host`: the `v...` form follows the IPvFuture
regex; other hosts must look like an IPv6 literal (approximated as hex
digits, colons and dots with at least one colon; `ipaddress` semantics
abstracted — no claim touches bracketed hosts). -/
def bracketedHostOk (h : List Char) : Bool :=
  match h with
  | 'v' :: rest =>
    let hx := rest.takeWhile hexChar
    match rest.drop hx.length with
    | '.' :: tl => !hx.isEmpty && !tl.isEmpty
    | _ => false
  | _ => h.contains ':' && h.all (fun c => hexChar c || c = ':' || c = '.')

/-- The netloc validation of `urlsplit` (bracket matching plus bracketed-host
check; the NFKC check of `_checknetloc` passes for all netlocs here). -/
def netlocOk (n : List Char) : Bool :=
  if (n.contains '[') != (n.contains ']') then false
  else if n.contains '[' && n.contains ']' then bracketedHostOk (bracketedPart n)
  else true

structure SplitResult where
  scheme : List Char
  netloc : List Char
  path : List Char
  query : List Char
  fragment : List Char
deriving DecidableEq

/-- `urlsplit` (CPython 3.11); `none` models a raised `ValueError`. -/
def pyUrlsplit (url0 : List Char) : Option SplitResult :=
  let url1 := (url0.dropWhile c0OrSpace).filter (fun c => !unsafeChar c)
  let sp := splitScheme url1
  let nl :=
    if sp.2.take 2 = ['/', '/'] then
      ((sp.2.drop 2).takeWhile (fun c => !netlocDelim c),
       (sp.2.drop 2).dropWhile (fun c => !netlocDelim c))
    else ([], sp.2)
  if netlocOk nl.1 then
    let fr := splitOnceAt '#' nl.2
    let qu := splitOnceAt '?' fr.1
    some ⟨sp.1, nl.1, qu.1, qu.2, fr.2⟩
  else none

/-- `uses_params` from `urllib.parse`. -/
def usesParamsStr : List String := ["", "ftp", "hdl", "prospero", "http", "imap",
  "https", "shttp", "rtsp", "rtsps", "rtspu", "sip", "sips", "mms", "sftp", "tel"]

/-- The segment of `p` after its last `/` (all of `p` when it has none). -/
def afterLastSlash (p : List Char) : List Char :=
  (p.reverse.takeWhile (fun c => c != '/')).reverse

/-- `_splitparams`: split `;params` off the path after the last `/` (off the
whole path when there is no `/`; only called when the path contains `;`). -/
def splitParams (p : List Char) : List Char × List Char :=
  if p.contains '/' then
    let tail := afterLastSlash p
    if tail.contains ';' then
      let ab := splitOnceAt ';' tail
      (p.take (p.length - tail.length) ++ ab.1, ab.2)
    else (p, [])
  else splitOnceAt ';' p

structure UrlParse where
  scheme : List Char
  netloc : List Char
  path : List Char
  params : List Char
  query : List Char
  fragment : List Char
deriving DecidableEq

/-- `urlparse` (CPython 3.11). -/
def pyUrlparse (url : List Char) : Option UrlParse :=
  match pyUrlsplit url with
  | none => none
  | some r =>
    if usesParamsStr.contains (String.mk r.scheme) && r.path.contains ';' then
      let pp := splitParams r.path
      some ⟨r.scheme, r.netloc, pp.1, pp.2, r.query, r.fragment⟩
    else some ⟨r.scheme, r.netloc, r.path, [], r.query, r.fragment⟩

/-- `uses_netloc` from `urllib.parse`. -/
def usesNetlocStr : List String := ["", "ftp", "http", "gopher", "nntp", "telnet",
  "imap", "wais", "file", "mms", "https", "shttp", "snews", "prospero", "rtsp",
  "rtsps", "rtspu", "rsync", "svn", "svn+ssh", "sftp", "nfs", "git", "git+ssh",
  "ws", "wss"]

/-- `if url and url[:1] != '/': url = '/' + url` from `urlunsplit`. -/
def normSlash (p : List Char) : List Char :=
  if !p.isEmpty && !(p.take 1 == ['/']) then '/' :: p else p

/-- `urlunsplit` (CPython 3.11). -/
def pyUrlunsplit (s n p q f : List Char) : List Char :=
  let url1 :=
    if !n.isEmpty || (!s.isEmpty && usesNetlocStr.contains (String.mk s)
        && !(p.take 2 == ['/', '/'])) then
      '/' :: '/' :: (n ++ normSlash p)
    else p
  let url2 := if !s.isEmpty then s ++ ':' :: url1 else url1
  let url3 := if !q.isEmpty then url2 ++ '?' :: q else url2
  if !f.isEmpty then url3 ++ '#' :: f else url3

/-- `urlunparse` (CPython 3.11). -/
def pyUrlunparse (s n p params q f : List Char) : List Char :=
  pyUrlunsplit s n (if !params.isEmpty then p ++ ';' :: params else p) q f

/-- `VRBO_BASE` from config.py. -/
def VRBO_BASE : String := "https://www.vrbo.com"

/-- `clean_url` from utils.py (lines 15-23): strip query/fragment/params,
default the scheme and host from `VRBO_BASE`; on a parse error (`except`)
return the href unchanged. -/
def clean_url (href : String) : String :=
  match pyUrlparse href.data, pyUrlparse VRBO_BASE.data with
  | some u, some base =>
    String.mk (pyUrlunparse
      (if u.scheme.isEmpty then base.scheme else u.scheme)
      (if u.netloc.isEmpty then base.netloc else u.netloc)
      u.path [] [] [])
  | _, _ => href

/-! ### List scanning helper lemmas -/

theorem twAllEq {α : Type} (pr : α → Bool) :
    ∀ l : List α, (∀ a ∈ l, pr a = true) → l.takeWhile pr = l := by
  intro l
  induction l with
  | nil => intro _; rfl
  | cons a l ih =>
    intro h
    rw [List.takeWhile_cons, if_pos (h a (List.mem_cons_self a l))]
    rw [ih fun b hb => h b (List.mem_cons_of_mem a hb)]

theorem dwAllEq {α : Type} (pr : α → Bool) :
    ∀ l : List α, (∀ a ∈ l, pr a = true) → l.dropWhile pr = [] := by
  intro l
  induction l with
  | nil => intro _; rfl
  | cons a l ih =>
    intro h
    rw [List.dropWhile_cons_of_pos (h a (List.mem_cons_self a l))]
    exact ih fun b hb => h b (List.mem_cons_of_mem a hb)

theorem twAppendAll {α : Type} (pr : α → Bool) :
    ∀ l₁ l₂ : List α, (∀ a ∈ l₁, pr a = true) →
      (l₁ ++ l₂).takeWhile pr = l₁ ++ l₂.takeWhile pr := by
  intro l₁
  induction l₁ with
  | nil => intro l₂ _; rfl
  | cons a l ih =>
    intro l₂ h
    rw [List.cons_append, List.takeWhile_cons, if_pos (h a (List.mem_cons_self a l))]
    rw [ih l₂ fun b hb => h b (List.mem_cons_of_mem a hb)]
    rfl

theorem dwAppendAll {α : Type} (pr : α → Bool) :
    ∀ l₁ l₂ : List α, (∀ a ∈ l₁, pr a = true) →
      (l₁ ++ l₂).dropWhile pr = l₂.dropWhile pr := by
  intro l₁
  induction l₁ with
  | nil => intro l₂ _; rfl
  | cons a l ih =>
    intro l₂ h
    rw [List.cons_append, List.dropWhile_cons_of_pos (h a (List.mem_cons_self a l))]
    exact ih l₂ fun b hb => h b (List.mem_cons_of_mem a hb)

theorem twAppendBreak {α : Type} (pr : α → Bool) :
    ∀ l₁ l₂ : List α, (¬ ∀ a ∈ l₁, pr a = true) →
      (l₁ ++ l₂).takeWhile pr = l₁.takeWhile pr := by
  intro l₁
  induction l₁ with
  | nil => intro l₂ h; exact absurd (fun a ha => absurd ha (List.not_mem_nil a)) h
  | cons a l ih =>
    intro l₂ h
    rw [List.cons_append, List.takeWhile_cons, List.takeWhile_cons]
    by_cases ha : pr a = true
    · rw [if_pos ha, if_pos ha, ih l₂]
      intro hall
      exact h fun b hb => by
        rcases List.mem_cons.mp hb with he | he
        · exact he ▸ ha
        · exact hall b he
    · rw [if_neg ha, if_neg ha]

theorem twLenLe {α : Type} (pr : α → Bool) : ∀ l : List α, (l.takeWhile pr).length ≤ l.length := by
  intro l
  induction l with
  | nil => exact Nat.le_refl 0
  | cons a l ih =>
    rw [List.takeWhile_cons]
    by_cases ha : pr a = true
    · rw [if_pos ha]; exact Nat.succ_le_succ ih
    · rw [if_neg ha]; exact Nat.zero_le _

theorem twEqSelfOfLen {α : Type} (pr : α → Bool) :
    ∀ l : List α, (l.takeWhile pr).length = l.length → l.takeWhile pr = l := by
  intro l
  induction l with
  | nil => intro _; rfl
  | cons a l ih =>
    intro h
    rw [List.takeWhile_cons] at h ⊢
    by_cases ha : pr a = true
    · rw [if_pos ha] at h ⊢
      rw [ih (Nat.succ_injective (by simpa using h))]
    · rw [if_neg ha] at h
      exact absurd h (by simp)

theorem dropAfterMarker {α : Type} (l₁ : List α) (d : α) (l₂ : List α) :
    (l₁ ++ d :: l₂).drop (l₁.length + 1) = l₂ := by
  have : l₁ ++ d :: l₂ = (l₁ ++ [d]) ++ l₂ := by simp
  rw [this, show l₁.length + 1 = (l₁ ++ [d]).length by simp, List.drop_left]

/-! ### `splitOnceAt` lemmas -/

theorem splitOnceAt_fst_all (d : Char) (l : List Char) :
    ∀ a ∈ (splitOnceAt d l).1, (a != d) = true := by
  unfold splitOnceAt
  by_cases h : (l.takeWhile (fun c => c != d)).length < l.length
  · rw [if_pos (by simpa using h)]
    intro a ha
    have ha' : a ∈ l.takeWhile (fun c => c != d) := ha
    exact List.mem_takeWhile_imp (p := fun c => c != d) ha'
  · rw [if_neg (by simpa using h)]
    intro a ha
    have hlen : (l.takeWhile (fun c => c != d)).length = l.length :=
      Nat.le_antisymm (twLenLe _ l) (Nat.le_of_not_lt h)
    have heq := twEqSelfOfLen _ l hlen
    have ha' : a ∈ l := ha
    exact List.mem_takeWhile_imp (p := fun c => c != d)
      (show a ∈ l.takeWhile (fun c => c != d) by rw [heq]; exact ha')

theorem splitOnceAt_none (d : Char) (l : List Char) (h : ∀ a ∈ l, (a != d) = true) :
    splitOnceAt d l = (l, []) := by
  unfold splitOnceAt
  rw [twAllEq _ l h]
  rw [if_neg (by simp)]

theorem splitOnceAt_found (d : Char) (l₁ l₂ : List Char) (h : ∀ a ∈ l₁, (a != d) = true) :
    splitOnceAt d (l₁ ++ d :: l₂) = (l₁, l₂) := by
  unfold splitOnceAt
  have htw : (l₁ ++ d :: l₂).takeWhile (fun c => c != d) = l₁ := by
    rw [twAppendAll _ l₁ (d :: l₂) h, List.takeWhile_cons, if_neg (by simp)]
    exact List.append_nil l₁
  rw [htw, if_pos (by simp [Nat.lt_succ_of_le, Nat.le_add_right])]
  rw [dropAfterMarker]

/-! ### Character class facts -/

theorem schemeChar_not_colon {c : Char} (h : schemeChar c = true) : (c != ':') = true := by
  by_cases hc : c = ':'
  · subst hc; exact absurd h (by decide)
  · exact bne_iff_ne.mpr hc

theorem schemeChar_safe {c : Char} (h : schemeChar c = true) : unsafeChar c = false := by
  by_cases h1 : c = '\t'
  · subst h1; exact absurd h (by decide)
  · by_cases h2 : c = '\r'
    · subst h2; exact absurd h (by decide)
    · by_cases h3 : c = '\n'
      · subst h3; exact absurd h (by decide)
      · simp [unsafeChar, h1, h2, h3]

theorem asciiAlpha_not_c0 {c : Char} (h : asciiAlpha c = true) : c0OrSpace c = false := by
  simp only [asciiAlpha, Bool.or_eq_true, Bool.and_eq_true_iff, decide_eq_true_eq] at h
  simp only [c0OrSpace, decide_eq_false_iff_not]
  omega

theorem containsFalseOfNotMem {l : List Char} {d : Char} (h : d ∉ l) :
    l.contains d = false := by
  cases hc : l.contains d
  · rfl
  · exact absurd (List.elem_iff.mp hc) h

theorem notMemOfAllBne {l : List Char} {d : Char} (h : ∀ a ∈ l, (a != d) = true) : d ∉ l :=
  fun hm => by have := h d hm; simp at this

theorem allBneOfNotContains {l : List Char} {d : Char} (h : l.contains d = false) :
    ∀ a ∈ l, (a != d) = true := by
  intro a ha
  by_cases he : a = d
  · subst he
    have h2 : l.contains a = true := List.elem_iff.mpr ha
    rw [h2] at h
    cases h
  · exact bne_iff_ne.mpr he

theorem twMemSubset {α : Type} {pr : α → Bool} : ∀ {l : List α} {a : α},
    a ∈ l.takeWhile pr → a ∈ l := by
  intro l
  induction l with
  | nil => intro a ha; cases ha
  | cons c cs ih =>
    intro a ha
    rw [List.takeWhile_cons] at ha
    by_cases hc : pr c = true
    · rw [if_pos hc] at ha
      rcases List.mem_cons.mp ha with he | he
      · exact he ▸ List.mem_cons_self c cs
      · exact List.mem_cons_of_mem c (ih he)
    · rw [if_neg hc] at ha
      cases ha

theorem splitOnceAt_fst_mem (d : Char) (l : List Char) :
    ∀ a ∈ (splitOnceAt d l).1, a ∈ l := by
  unfold splitOnceAt
  by_cases h : (l.takeWhile (fun c => c != d)).length < l.length
  · rw [if_pos (by simpa using h)]
    intro a ha
    exact twMemSubset ha
  · rw [if_neg (by simpa using h)]
    intro a ha
    exact ha

/-! ### `afterLastSlash` lemmas -/

theorem afterLastSlash_of_no_slash {p : List Char} (h : ∀ a ∈ p, (a != '/') = true) :
    afterLastSlash p = p := by
  unfold afterLastSlash
  rw [twAllEq _ p.reverse (fun a ha => h a (List.mem_reverse.mp ha)), List.reverse_reverse]

theorem afterLastSlash_marker (x a : List Char) (h : ∀ c ∈ a, (c != '/') = true) :
    afterLastSlash (x ++ '/' :: a) = a := by
  unfold afterLastSlash
  rw [List.reverse_append, List.reverse_cons, List.append_assoc]
  rw [twAppendAll _ a.reverse _ (fun c hc => h c (List.mem_reverse.mp hc))]
  rw [show (['/'] ++ x.reverse) = '/' :: x.reverse from rfl]
  rw [List.takeWhile_cons, if_neg (by simp)]
  rw [List.append_nil, List.reverse_reverse]

theorem afterLastSlash_no_slash (p : List Char) :
    ∀ a ∈ afterLastSlash p, (a != '/') = true := by
  intro a ha
  unfold afterLastSlash at ha
  exact List.mem_takeWhile_imp (p := fun c => c != '/') (List.mem_reverse.mp ha)

theorem afterLastSlash_mem (p : List Char) : ∀ a ∈ afterLastSlash p, a ∈ p := by
  intro a ha
  unfold afterLastSlash at ha
  exact List.mem_reverse.mp (twMemSubset (List.mem_reverse.mp ha))

theorem dwBreak (d : Char) : ∀ l : List Char, l.contains d = true →
    ∃ t, l.dropWhile (fun c => c != d) = d :: t := by
  intro l
  induction l with
  | nil => intro h; cases h
  | cons c cs ih =>
    intro h
    by_cases hc : c = d
    · refine ⟨cs, ?_⟩
      rw [List.dropWhile_cons_of_neg (p := fun x => x != d) (by simp [hc])]
      rw [hc]
    · rw [List.dropWhile_cons_of_pos (p := fun x => x != d) (bne_iff_ne.mpr hc)]
      apply ih
      rcases List.mem_cons.mp (List.elem_iff.mp h) with he | he
      · exact absurd he.symm hc
      · exact List.elem_iff.mpr he

/-- Decomposition at the last slash: a path containing `/` is
`front ++ '/' :: afterLastSlash p`, and the `take` used by `_splitparams`
recovers exactly `front ++ ['/']`. -/
theorem lastSlashDecomp (p : List Char) (h : p.contains '/' = true) :
    ∃ front : List Char,
      p = front ++ '/' :: afterLastSlash p ∧
      p.take (p.length - (afterLastSlash p).length) = front ++ ['/'] := by
  have hrev : p.reverse.contains '/' = true := by
    rcases List.elem_iff.mp h with he | he
    · exact List.elem_iff.mpr (List.mem_reverse.mpr (by simp))
    · exact List.elem_iff.mpr (List.mem_reverse.mpr (by
        rcases List.mem_cons.mp (List.mem_of_elem_eq_true h) with h1 | h1
        · exact List.mem_of_elem_eq_true h
        · exact List.mem_of_elem_eq_true h))
  obtain ⟨t, ht⟩ := dwBreak '/' p.reverse hrev
  have hsplit : p.reverse = (afterLastSlash p).reverse ++ '/' :: t := by
    rw [show (afterLastSlash p).reverse = p.reverse.takeWhile (fun c => c != '/') by
      unfold afterLastSlash; rw [List.reverse_reverse]]
    rw [← ht, List.takeWhile_append_dropWhile]
  have hthis := congrArg List.reverse hsplit
  rw [List.reverse_reverse, List.reverse_append, List.reverse_cons, List.reverse_reverse,
    List.append_assoc] at hthis
  have hp : p = (t.reverse ++ ['/']) ++ afterLastSlash p := by
    rw [List.append_assoc]
    exact hthis
  refine ⟨t.reverse, hthis, ?_⟩
  have hlen2 : p.length = (t.reverse ++ ['/']).length + (afterLastSlash p).length := by
    conv =>
      lhs
      rw [hp]
    rw [List.length_append]
  have hlen : p.length - (afterLastSlash p).length = (t.reverse ++ ['/']).length := by
    omega
  rw [hlen]
  calc p.take ((t.reverse ++ ['/']).length)
      = ((t.reverse ++ ['/']) ++ afterLastSlash p).take ((t.reverse ++ ['/']).length) := by
        conv =>
          lhs
          rw [hp]
    _ = t.reverse ++ ['/'] := List.take_left _ _

/-- The path `_splitparams` returns never has `;` after its last slash. -/
theorem splitParams_fst_semi (p : List Char) :
    (afterLastSlash (splitParams p).1).contains ';' = false := by
  unfold splitParams
  by_cases hs : p.contains '/' = true
  · rw [if_pos hs]
    by_cases ht : (afterLastSlash p).contains ';' = true
    · rw [if_pos ht]
      obtain ⟨front, hdec, htake⟩ := lastSlashDecomp p hs
      have hmem : ∀ a ∈ (splitOnceAt ';' (afterLastSlash p)).1, (a != '/') = true :=
        fun a ha => afterLastSlash_no_slash p a (splitOnceAt_fst_mem ';' _ a ha)
      show (afterLastSlash (p.take (p.length - (afterLastSlash p).length)
        ++ (splitOnceAt ';' (afterLastSlash p)).1)).contains ';' = false
      rw [htake, List.append_assoc,
        show (['/'] ++ (splitOnceAt ';' (afterLastSlash p)).1)
          = '/' :: (splitOnceAt ';' (afterLastSlash p)).1 from rfl,
        afterLastSlash_marker front _ hmem]
      exact containsFalseOfNotMem (notMemOfAllBne (splitOnceAt_fst_all ';' _))
    · rw [if_neg ht]
      show (afterLastSlash p).contains ';' = false
      exact Bool.not_eq_true _ ▸ ht
  · rw [if_neg hs]
    have hnos : ∀ a ∈ (splitOnceAt ';' p).1, (a != '/') = true := fun a ha =>
      allBneOfNotContains (Bool.not_eq_true _ ▸ hs) a (splitOnceAt_fst_mem ';' p a ha)
    rw [afterLastSlash_of_no_slash hnos]
    exact containsFalseOfNotMem (notMemOfAllBne (splitOnceAt_fst_all ';' p))

theorem dwMemSubset {α : Type} {pr : α → Bool} : ∀ {l : List α} {a : α},
    a ∈ l.dropWhile pr → a ∈ l := by
  intro l
  induction l with
  | nil => intro a ha; cases ha
  | cons c cs ih =>
    intro a ha
    by_cases hc : pr c = true
    · rw [List.dropWhile_cons_of_pos hc] at ha
      exact List.mem_cons_of_mem c (ih ha)
    · rw [List.dropWhile_cons_of_neg hc] at ha
      exact ha

theorem neIsEmptyFalse {α : Type} {l : List α} (h : l ≠ []) : l.isEmpty = false := by
  cases l with
  | nil => exact absurd rfl h
  | cons a t => rfl

/-! ### ASCII lowering facts -/

theorem toNatOfNatValid (n : Nat) (h : n.isValidChar) : (Char.ofNat n).toNat = n := by
  simp [Char.ofNat, h]
  rfl

theorem lowerAscii_toNat (c : Char) :
    (lowerAscii c).toNat
      = if 65 ≤ c.toNat ∧ c.toNat ≤ 90 then c.toNat + 32 else c.toNat := by
  unfold lowerAscii
  by_cases h : 65 ≤ c.toNat ∧ c.toNat ≤ 90
  · rw [if_pos (by simp [h.1, h.2]), if_pos h]
    have hvc : (c.toNat + 32).isValidChar := Or.inl (by omega)
    exact toNatOfNatValid _ hvc
  · rw [if_neg (by simpa [Bool.and_eq_true_iff, decide_eq_true_eq] using h), if_neg h]

theorem lowerAscii_eq_self {c : Char} (h : ¬(65 ≤ c.toNat ∧ c.toNat ≤ 90)) :
    lowerAscii c = c := by
  unfold lowerAscii
  rw [if_neg (by simpa [Bool.and_eq_true_iff, decide_eq_true_eq] using h)]

theorem lowerAscii_idem (c : Char) : lowerAscii (lowerAscii c) = lowerAscii c := by
  by_cases h : 65 ≤ c.toNat ∧ c.toNat ≤ 90
  · have ht : (lowerAscii c).toNat = c.toNat + 32 := by rw [lowerAscii_toNat, if_pos h]
    exact lowerAscii_eq_self (by rw [ht]; omega)
  · rw [lowerAscii_eq_self h, lowerAscii_eq_self h]

theorem asciiAlpha_lower {c : Char} (h : asciiAlpha c = true) :
    asciiAlpha (lowerAscii c) = true := by
  simp only [asciiAlpha, Bool.or_eq_true, Bool.and_eq_true_iff, decide_eq_true_eq] at h ⊢
  rw [lowerAscii_toNat]
  by_cases hu : 65 ≤ c.toNat ∧ c.toNat ≤ 90
  · rw [if_pos hu]; omega
  · rw [if_neg hu]; omega

theorem schemeChar_lower {c : Char} (h : schemeChar c = true) :
    schemeChar (lowerAscii c) = true := by
  by_cases hr : 65 ≤ c.toNat ∧ c.toNat ≤ 90
  · have ht : (lowerAscii c).toNat = c.toNat + 32 := by rw [lowerAscii_toNat, if_pos hr]
    have ha : asciiAlpha (lowerAscii c) = true := by
      simp only [asciiAlpha, ht, Bool.or_eq_true, Bool.and_eq_true_iff, decide_eq_true_eq]
      omega
    simp [schemeChar, ha]
  · rw [lowerAscii_eq_self hr]
    exact h

/-! ### `normSlash` lemmas -/

theorem normSlash_shape : ∀ p : List Char, normSlash p = [] ∨ ∃ t, normSlash p = '/' :: t := by
  intro p
  cases p with
  | nil => exact Or.inl rfl
  | cons c t =>
    unfold normSlash
    by_cases hc : c = '/'
    · subst hc
      rw [if_neg (by simp)]
      exact Or.inr ⟨t, rfl⟩
    · rw [if_pos (by simp [List.take, hc])]
      exact Or.inr ⟨c :: t, rfl⟩

theorem normSlash_idem (p : List Char) : normSlash (normSlash p) = normSlash p := by
  rcases normSlash_shape p with h | ⟨t, h⟩
  · rw [h]; rfl
  · rw [h]
    unfold normSlash
    rw [if_neg (by simp)]

theorem normSlash_mem (p : List Char) : ∀ a ∈ normSlash p, a = '/' ∨ a ∈ p := by
  unfold normSlash
  by_cases h : (!p.isEmpty && !(p.take 1 == ['/'])) = true
  · rw [if_pos h]
    intro a ha
    rcases List.mem_cons.mp ha with he | he
    · exact Or.inl he
    · exact Or.inr he
  · rw [if_neg h]
    intro a ha
    exact Or.inr ha

theorem afterLastSlash_normSlash (p : List Char) :
    afterLastSlash (normSlash p) = afterLastSlash p := by
  unfold normSlash
  by_cases h : (!p.isEmpty && !(p.take 1 == ['/'])) = true
  · rw [if_pos h]
    by_cases hs : p.contains '/' = true
    · obtain ⟨front, hdec, _⟩ := lastSlashDecomp p hs
      have hball := afterLastSlash_no_slash p
      conv =>
        lhs
        rw [hdec]
      rw [show '/' :: (front ++ '/' :: afterLastSlash p)
          = ('/' :: front) ++ '/' :: afterLastSlash p from rfl]
      rw [afterLastSlash_marker ('/' :: front) _ hball]
    · have hball : ∀ a ∈ p, (a != '/') = true :=
        allBneOfNotContains (Bool.not_eq_true _ ▸ hs)
      rw [show ('/' :: p) = [] ++ '/' :: p from rfl, afterLastSlash_marker [] p hball,
        afterLastSlash_of_no_slash hball]
  · rw [if_neg h]

/-! ### The rendering produced by `clean_url` -/

theorem cleanRender (s n p : List Char) (hs : s ≠ []) (hn : n ≠ []) :
    pyUrlunparse s n p [] [] [] = s ++ ':' :: '/' :: '/' :: (n ++ normSlash p) := by
  unfold pyUrlunparse pyUrlunsplit
  split_ifs with h1 h2 h3 h4 h5 <;>
    simp_all [neIsEmptyFalse hn, neIsEmptyFalse hs]

/-! ### Re-parsing the rendering -/

theorem pyUrlsplit_render (s n p : List Char)
    (hs1 : s ≠ []) (hs2 : headIsAlpha s = true)
    (hs3 : ∀ c ∈ s, schemeChar c = true) (hs4 : s.map lowerAscii = s)
    (hn1 : n ≠ []) (hn2 : ∀ c ∈ n, netlocDelim c = false) (hn3 : netlocOk n = true)
    (hn4 : ∀ c ∈ n, unsafeChar c = false)
    (hp : ∀ c ∈ p, (c != '#') = true ∧ (c != '?') = true ∧ unsafeChar c = false) :
    pyUrlsplit (s ++ ':' :: '/' :: '/' :: (n ++ normSlash p))
      = some ⟨s, n, normSlash p, [], []⟩ := by
  have hp2 : ∀ c ∈ normSlash p,
      (c != '#') = true ∧ (c != '?') = true ∧ unsafeChar c = false := by
    intro c hc
    rcases normSlash_mem p c hc with he | he
    · subst he; refine ⟨by decide, by decide, by decide⟩
    · exact hp c he
  obtain ⟨c0, s', hsd⟩ : ∃ c0 s', s = c0 :: s' := by
    cases s with
    | nil => exact absurd rfl hs1
    | cons a t => exact ⟨a, t, rfl⟩
  have hc0 : asciiAlpha c0 = true := by rw [hsd] at hs2; exact hs2
  have hstrip : (s ++ ':' :: '/' :: '/' :: (n ++ normSlash p)).dropWhile c0OrSpace
      = s ++ ':' :: '/' :: '/' :: (n ++ normSlash p) := by
    rw [hsd, List.cons_append,
      List.dropWhile_cons_of_neg (by simp [asciiAlpha_not_c0 hc0])]
  have hfilter : (s ++ ':' :: '/' :: '/' :: (n ++ normSlash p)).filter
      (fun c => !unsafeChar c) = s ++ ':' :: '/' :: '/' :: (n ++ normSlash p) := by
    apply List.filter_eq_self.mpr
    intro a ha
    simp only [List.mem_append, List.mem_cons] at ha
    rcases ha with ha | ha | ha | ha | ha | ha
    · rw [schemeChar_safe (hs3 a ha)]; rfl
    · subst ha; decide
    · subst ha; decide
    · subst ha; decide
    · rw [hn4 a ha]; rfl
    · rw [(hp2 a ha).2.2]; rfl
  have htw : (s ++ ':' :: '/' :: '/' :: (n ++ normSlash p)).takeWhile
      (fun c => c != ':') = s := by
    rw [twAppendAll _ s _ (fun c hc => schemeChar_not_colon (hs3 c hc)),
      List.takeWhile_cons, if_neg (by simp), List.append_nil]
  have hss : splitScheme (s ++ ':' :: '/' :: '/' :: (n ++ normSlash p))
      = (s, '/' :: '/' :: (n ++ normSlash p)) := by
    unfold splitScheme
    rw [htw]
    rw [if_pos ?hcond]
    case hcond =>
      have hlt : s.length < (s ++ ':' :: '/' :: '/' :: (n ++ normSlash p)).length := by
        rw [List.length_append]
        simp only [List.length_cons]
        omega
      simp [hlt, neIsEmptyFalse hs1, hs2, List.all_eq_true.mpr hs3]
    rw [hs4, dropAfterMarker s ':' ('/' :: '/' :: (n ++ normSlash p))]
  have hnetTw : (n ++ normSlash p).takeWhile (fun c => !netlocDelim c) = n := by
    rw [twAppendAll _ n _ (fun c hc => by rw [hn2 c hc]; rfl)]
    rcases normSlash_shape p with h | ⟨t, h⟩
    · rw [h, List.takeWhile_nil, List.append_nil]
    · rw [h, List.takeWhile_cons, if_neg (by decide), List.append_nil]
  have hnetDw : (n ++ normSlash p).dropWhile (fun c => !netlocDelim c) = normSlash p := by
    rw [dwAppendAll _ n _ (fun c hc => by rw [hn2 c hc]; rfl)]
    rcases normSlash_shape p with h | ⟨t, h⟩
    · rw [h, List.dropWhile_nil]
    · rw [h, List.dropWhile_cons_of_neg (by decide)]
  have hfr : splitOnceAt '#' (normSlash p) = (normSlash p, []) :=
    splitOnceAt_none '#' _ (fun a ha => (hp2 a ha).1)
  have hqu : splitOnceAt '?' (normSlash p) = (normSlash p, []) :=
    splitOnceAt_none '?' _ (fun a ha => (hp2 a ha).2.1)
  unfold pyUrlsplit
  dsimp only
  rw [hstrip, hfilter, hss]
  dsimp only
  rw [if_pos (show List.take 2 ('/' :: '/' :: (n ++ normSlash p)) = ['/', '/'] from rfl)]
  rw [List.drop_succ_cons, List.drop_succ_cons, List.drop_zero]
  rw [hnetTw, hnetDw]
  rw [if_pos hn3]
  rw [hfr, hqu]

theorem pyUrlparse_render (s n p : List Char)
    (hs1 : s ≠ []) (hs2 : headIsAlpha s = true)
    (hs3 : ∀ c ∈ s, schemeChar c = true) (hs4 : s.map lowerAscii = s)
    (hn1 : n ≠ []) (hn2 : ∀ c ∈ n, netlocDelim c = false) (hn3 : netlocOk n = true)
    (hn4 : ∀ c ∈ n, unsafeChar c = false)
    (hp : ∀ c ∈ p, (c != '#') = true ∧ (c != '?') = true ∧ unsafeChar c = false)
    (hpp : usesParamsStr.contains (String.mk s) = true →
      (afterLastSlash p).contains ';' = false) :
    pyUrlparse (pyUrlunparse s n p [] [] [])
      = some ⟨s, n, normSlash p, [], [], []⟩ := by
  rw [cleanRender s n p hs1 hn1]
  unfold pyUrlparse
  rw [pyUrlsplit_render s n p hs1 hs2 hs3 hs4 hn1 hn2 hn3 hn4 hp]
  dsimp only
  by_cases hcond : (usesParamsStr.contains (String.mk s)
      && (normSlash p).contains ';') = true
  · rw [if_pos hcond]
    rcases Bool.and_eq_true_iff.mp hcond with ⟨hu, hsemi⟩
    have hne : normSlash p ≠ [] := by
      intro h
      rw [h] at hsemi
      cases hsemi
    obtain ⟨t, hsh⟩ : ∃ t, normSlash p = '/' :: t := by
      rcases normSlash_shape p with h | h
      · exact absurd h hne
      · exact h
    have hcontains : (normSlash p).contains '/' = true := by
      rw [hsh]
      exact List.elem_iff.mpr (List.mem_cons_self _ _)
    have hsp : splitParams (normSlash p) = (normSlash p, []) := by
      unfold splitParams
      rw [if_pos hcontains]
      rw [if_neg (by
        rw [afterLastSlash_normSlash p, hpp hu]
        simp)]
    rw [hsp]
  · rw [if_neg hcond]

/-! ### Well-formedness of parse results -/

theorem splitScheme_fst_wf (l : List Char) :
    (splitScheme l).1 = [] ∨
      (headIsAlpha (splitScheme l).1 = true ∧
       (∀ c ∈ (splitScheme l).1, schemeChar c = true) ∧
       (splitScheme l).1.map lowerAscii = (splitScheme l).1) := by
  unfold splitScheme
  dsimp only
  by_cases hc : (decide ((l.takeWhile (fun c => c != ':')).length < l.length)
      && !(l.takeWhile (fun c => c != ':')).isEmpty
      && headIsAlpha (l.takeWhile (fun c => c != ':'))
      && (l.takeWhile (fun c => c != ':')).all schemeChar) = true
  · rw [if_pos hc]
    dsimp only
    right
    rcases Bool.and_eq_true_iff.mp hc with ⟨hc1, hall⟩
    rcases Bool.and_eq_true_iff.mp hc1 with ⟨hc2, hhead⟩
    refine ⟨?_, ?_, ?_⟩
    · cases hpre : l.takeWhile (fun c => c != ':') with
      | nil => rw [hpre] at hhead; exact absurd hhead (by decide)
      | cons c t =>
        rw [hpre] at hhead
        rw [List.map_cons]
        exact asciiAlpha_lower hhead
    · intro c hcm
      rcases List.mem_map.mp hcm with ⟨c0, hc0, he⟩
      rw [← he]
      exact schemeChar_lower (List.all_eq_true.mp hall c0 hc0)
    · rw [List.map_map]
      exact List.map_congr_left (fun a _ => lowerAscii_idem a)
  · rw [if_neg hc]
    exact Or.inl rfl

theorem splitScheme_snd_mem (l : List Char) : ∀ a ∈ (splitScheme l).2, a ∈ l := by
  unfold splitScheme
  dsimp only
  by_cases hc : (decide ((l.takeWhile (fun c => c != ':')).length < l.length)
      && !(l.takeWhile (fun c => c != ':')).isEmpty
      && headIsAlpha (l.takeWhile (fun c => c != ':'))
      && (l.takeWhile (fun c => c != ':')).all schemeChar) = true
  · rw [if_pos hc]
    dsimp only
    intro a ha
    exact List.mem_of_mem_drop ha
  · rw [if_neg hc]
    intro a ha
    exact ha

theorem splitParams_fst_mem (p : List Char) : ∀ a ∈ (splitParams p).1, a ∈ p := by
  unfold splitParams
  by_cases h1 : p.contains '/' = true
  · rw [if_pos h1]
    by_cases h2 : (afterLastSlash p).contains ';' = true
    · rw [if_pos h2]
      intro a ha
      have ha' : a ∈ p.take (p.length - (afterLastSlash p).length)
          ++ (splitOnceAt ';' (afterLastSlash p)).1 := ha
      rcases List.mem_append.mp ha' with h | h
      · exact List.mem_of_mem_take h
      · exact afterLastSlash_mem p a (splitOnceAt_fst_mem ';' _ a h)
    · rw [if_neg h2]
      intro a ha
      exact ha
  · rw [if_neg h1]
    exact splitOnceAt_fst_mem ';' p

/-- Facts guaranteed for every successful `pyUrlsplit` result. -/
theorem pyUrlsplit_wf {l : List Char} {r : SplitResult} (h : pyUrlsplit l = some r) :
    (r.scheme = [] ∨ (headIsAlpha r.scheme = true ∧
      (∀ c ∈ r.scheme, schemeChar c = true) ∧ r.scheme.map lowerAscii = r.scheme)) ∧
    (∀ c ∈ r.netloc, netlocDelim c = false) ∧
    netlocOk r.netloc = true ∧
    (∀ c ∈ r.netloc, unsafeChar c = false) ∧
    (∀ c ∈ r.path, (c != '#') = true ∧ (c != '?') = true ∧ unsafeChar c = false) := by
  unfold pyUrlsplit at h
  dsimp only at h
  have hmemUrl1 : ∀ a ∈ ((l.dropWhile c0OrSpace).filter (fun c => !unsafeChar c)),
      unsafeChar a = false := by
    intro a ha
    have := List.of_mem_filter ha
    simpa using this
  by_cases hnl : (splitScheme ((l.dropWhile c0OrSpace).filter (fun c => !unsafeChar c))).2.take 2
      = ['/', '/']
  · rw [if_pos hnl] at h
    dsimp only at h
    by_cases hok : netlocOk (((splitScheme ((l.dropWhile c0OrSpace).filter
        (fun c => !unsafeChar c))).2.drop 2).takeWhile (fun c => !netlocDelim c)) = true
    · rw [if_pos hok] at h
      injection h with h
      subst h
      dsimp only
      refine ⟨splitScheme_fst_wf _, ?_, hok, ?_, ?_⟩
      · intro c hc
        have := List.mem_takeWhile_imp (p := fun c => !netlocDelim c) hc
        simpa using this
      · intro c hc
        exact hmemUrl1 c (splitScheme_snd_mem _ c
          (List.mem_of_mem_drop (twMemSubset hc)))
      · intro c hc
        have hcq : (c != '?') = true := splitOnceAt_fst_all '?' _ c hc
        have hcf : c ∈ (splitOnceAt '#' _).1 := splitOnceAt_fst_mem '?' _ c hc
        have hch : (c != '#') = true := splitOnceAt_fst_all '#' _ c hcf
        have hcm : c ∈ ((splitScheme ((l.dropWhile c0OrSpace).filter
            (fun c => !unsafeChar c))).2.drop 2).dropWhile (fun c => !netlocDelim c) :=
          splitOnceAt_fst_mem '#' _ c hcf
        exact ⟨hch, hcq, hmemUrl1 c (splitScheme_snd_mem _ c
          (List.mem_of_mem_drop (dwMemSubset hcm)))⟩
    · rw [if_neg hok] at h
      cases h
  · rw [if_neg hnl] at h
    dsimp only at h
    by_cases hok : netlocOk ([] : List Char) = true
    · rw [if_pos hok] at h
      injection h with h
      subst h
      dsimp only
      refine ⟨splitScheme_fst_wf _, ?_, hok, ?_, ?_⟩
      · intro c hc
        cases hc
      · intro c hc
        cases hc
      · intro c hc
        have hcq : (c != '?') = true := splitOnceAt_fst_all '?' _ c hc
        have hcf : c ∈ (splitOnceAt '#' _).1 := splitOnceAt_fst_mem '?' _ c hc
        have hch : (c != '#') = true := splitOnceAt_fst_all '#' _ c hcf
        have hcm : c ∈ (splitScheme ((l.dropWhile c0OrSpace).filter
            (fun c => !unsafeChar c))).2 := splitOnceAt_fst_mem '#' _ c hcf
        exact ⟨hch, hcq, hmemUrl1 c (splitScheme_snd_mem _ c hcm)⟩
    · rw [if_neg hok] at h
      cases h

/-- Facts guaranteed for every successful `pyUrlparse` result. -/
theorem pyUrlparse_wf {l : List Char} {u : UrlParse} (h : pyUrlparse l = some u) :
    (u.scheme = [] ∨ (headIsAlpha u.scheme = true ∧
      (∀ c ∈ u.scheme, schemeChar c = true) ∧ u.scheme.map lowerAscii = u.scheme)) ∧
    (∀ c ∈ u.netloc, netlocDelim c = false) ∧
    netlocOk u.netloc = true ∧
    (∀ c ∈ u.netloc, unsafeChar c = false) ∧
    (∀ c ∈ u.path, (c != '#') = true ∧ (c != '?') = true ∧ unsafeChar c = false) ∧
    (usesParamsStr.contains (String.mk u.scheme) = true →
      (afterLastSlash u.path).contains ';' = false) := by
  unfold pyUrlparse at h
  cases hsp : pyUrlsplit l with
  | none => rw [hsp] at h; cases h
  | some r =>
    rw [hsp] at h
    dsimp only at h
    obtain ⟨hwS, hwD, hwO, hwU, hwP⟩ := pyUrlsplit_wf hsp
    by_cases hcond : (usesParamsStr.contains (String.mk r.scheme)
        && r.path.contains ';') = true
    · rw [if_pos hcond] at h
      injection h with h
      subst h
      dsimp only
      refine ⟨hwS, hwD, hwO, hwU, ?_, fun _ => splitParams_fst_semi r.path⟩
      intro c hc
      exact hwP c (splitParams_fst_mem r.path c hc)
    · rw [if_neg hcond] at h
      injection h with h
      subst h
      dsimp only
      refine ⟨hwS, hwD, hwO, hwU, hwP, ?_⟩
      intro hu
      have hnosemi : r.path.contains ';' = false := by
        cases hx : r.path.contains ';'
        · rfl
        · exact absurd (by rw [hu, hx]; rfl) hcond
      exact containsFalseOfNotMem (fun hm => by
        have h1 : r.path.contains ';' = true :=
          List.elem_iff.mpr (afterLastSlash_mem r.path ';' hm)
        rw [h1] at hnosemi
        cases hnosemi)

/-! ### `clean_url`: the C7 theorems -/

/-- The parse of `VRBO_BASE` (computed once in `clean_url`). -/
def baseParse : UrlParse := ⟨"https".data, "www.vrbo.com".data, [], [], [], []⟩

theorem pyUrlparse_base : pyUrlparse VRBO_BASE.data = some baseParse := by decide

theorem clean_url_eq_of_parse {x : String} {u : UrlParse} (h : pyUrlparse x.data = some u) :
    clean_url x
      = String.mk (pyUrlunparse
          (if u.scheme.isEmpty then baseParse.scheme else u.scheme)
          (if u.netloc.isEmpty then baseParse.netloc else u.netloc) u.path [] [] []) := by
  unfold clean_url
  rw [h, pyUrlparse_base]

theorem clean_url_eq_of_none {x : String} (h : pyUrlparse x.data = none) :
    clean_url x = x := by
  unfold clean_url
  rw [h]

theorem defaultedNe (l d : List Char) (hd : d ≠ []) :
    (if l.isEmpty = true then d else l) ≠ [] := by
  by_cases h : l.isEmpty = true
  · rw [if_pos h]; exact hd
  · rw [if_neg h]
    intro hx
    exact h (by rw [hx]; rfl)

theorem ifIsEmptySelf {l : List Char} {d : List Char} (h : l ≠ []) :
    (if l.isEmpty = true then d else l) = l := by
  rw [if_neg (by rw [neIsEmptyFalse h]; exact Bool.false_ne_true)]

theorem clean_url_reparse {x : String} {u : UrlParse} (h : pyUrlparse x.data = some u) :
    pyUrlparse (clean_url x).data
      = some ⟨(if u.scheme.isEmpty then baseParse.scheme else u.scheme),
              (if u.netloc.isEmpty then baseParse.netloc else u.netloc),
              normSlash u.path, [], [], []⟩ := by
  obtain ⟨hwS, hwD, hwO, hwU, hwP, hwPar⟩ := pyUrlparse_wf h
  rw [clean_url_eq_of_parse h]
  show pyUrlparse (pyUrlunparse _ _ u.path [] [] []) = _
  by_cases hse : u.scheme.isEmpty = true
  · have hsch : u.scheme = [] := by
      cases hsc : u.scheme with
      | nil => rfl
      | cons a t => rw [hsc] at hse; cases hse
    rw [if_pos hse]
    by_cases hne : u.netloc.isEmpty = true
    · rw [if_pos hne]
      apply pyUrlparse_render
      · decide
      · decide
      · decide
      · decide
      · decide
      · decide
      · decide
      · decide
      · exact hwP
      · intro _
        exact hwPar (by rw [hsch]; decide)
    · rw [if_neg hne]
      have hnne : u.netloc ≠ [] := by
        intro hx
        rw [hx] at hne
        exact hne rfl
      apply pyUrlparse_render
      · decide
      · decide
      · decide
      · decide
      · exact hnne
      · exact hwD
      · exact hwO
      · exact hwU
      · exact hwP
      · intro _
        exact hwPar (by rw [hsch]; decide)
  · rw [if_neg hse]
    have hsne : u.scheme ≠ [] := by
      intro hx
      rw [hx] at hse
      exact hse rfl
    have hsfacts := hwS.resolve_left hsne
    by_cases hne : u.netloc.isEmpty = true
    · rw [if_pos hne]
      apply pyUrlparse_render
      · exact hsne
      · exact hsfacts.1
      · exact hsfacts.2.1
      · exact hsfacts.2.2
      · decide
      · decide
      · decide
      · decide
      · exact hwP
      · exact hwPar
    · rw [if_neg hne]
      have hnne : u.netloc ≠ [] := by
        intro hx
        rw [hx] at hne
        exact hne rfl
      apply pyUrlparse_render
      · exact hsne
      · exact hsfacts.1
      · exact hsfacts.2.1
      · exact hsfacts.2.2
      · exact hnne
      · exact hwD
      · exact hwO
      · exact hwU
      · exact hwP
      · exact hwPar

/-- C7 counterexample: for an href whose netloc has `[` without `]`,
`urlparse` raises and the source's `except` returns the href unchanged — the
query (`?q=1`) is not stripped, so "for every href string the query is
stripped" fails. -/
theorem claim_C7_counterexample :
    clean_url "https://[a?q=1" = "https://[a?q=1" ∧
    (clean_url "https://[a?q=1").data.contains '?' = true := by
  constructor
  · rfl
  · decide

/-- C7 (amended): `clean_url` is idempotent on every string.  For every href
the library parser accepts, the result re-parses to scheme + host + path with
empty query, fragment and params — the query and fragment are stripped and
the scheme/host default to the site's when the href lacks them (the path is
slash-normalized by `urlunparse`).  For an href the parser rejects (invalid
bracketed netloc), the href is returned unchanged, query included. -/
theorem claim_C7_clean_url (x : String) :
    clean_url (clean_url x) = clean_url x ∧
    (∀ u : UrlParse, pyUrlparse x.data = some u →
      pyUrlparse (clean_url x).data
        = some ⟨(if u.scheme.isEmpty then baseParse.scheme else u.scheme),
                (if u.netloc.isEmpty then baseParse.netloc else u.netloc),
                normSlash u.path, [], [], []⟩) ∧
    (pyUrlparse x.data = none → clean_url x = x) := by
  refine ⟨?_, fun u h => clean_url_reparse h, fun h => clean_url_eq_of_none h⟩
  cases hx : pyUrlparse x.data with
  | none =>
    rw [clean_url_eq_of_none hx]
    exact clean_url_eq_of_none hx
  | some u =>
    have h2 := clean_url_reparse hx
    rw [clean_url_eq_of_parse h2, clean_url_eq_of_parse hx]
    dsimp only
    have hSne := defaultedNe u.scheme baseParse.scheme (by decide)
    have hNne := defaultedNe u.netloc baseParse.netloc (by decide)
    rw [ifIsEmptySelf hSne, ifIsEmptySelf hNne]
    rw [cleanRender _ _ _ hSne hNne, cleanRender _ _ _ hSne hNne, normSlash_idem]

theorem claim_C7_clean_url_witness :
    pyUrlparse (clean_url "https://www.vrbo.com/p1?x=1#f").data
      = some ⟨"https".data, "www.vrbo.com".data, "/p1".data, [], [], []⟩ ∧
    clean_url "http://[a?q=1" = "http://[a?q=1" := by
  constructor
  · have h := (claim_C7_clean_url "https://www.vrbo.com/p1?x=1#f").2.1
      ⟨"https".data, "www.vrbo.com".data, "/p1".data, [], "x=1".data, "f".data⟩
      (by decide)
    rw [h]
    decide
  · exact (claim_C7_clean_url "http://[a?q=1").2.2 (by decide)

/-! ## `build_entry_url` (utils.py lines 51-107)

The explicit-search-url branch parses the url, loads its query into a dict
with `parse_qsl(..., keep_blank_values=True)`, overlays date/adult/child/
region/sort parameters and re-renders; the other branch synthesizes the
query dict from scratch.  Here the result is the structured URL with its
query as the decoded parameter mapping (an insertion-ordered association
list with unique keys, like a Python dict); the final
`urlencode`/`urlunparse` string rendering is abstracted away — the claims
are about the parameters. -/

def hexVal (c : Char) : Nat :=
  if asciiDigit c then c.toNat - 48
  else if 97 ≤ c.toNat && c.toNat ≤ 102 then c.toNat - 87
  else c.toNat - 55

/-- Percent-decoding of `urllib.parse.unquote`: decode every valid `%XX`
escape, leave invalid escapes verbatim.  Decoded bytes at or above 0x80
(multi-byte UTF-8 sequences, absent from every input in this development)
are abstracted to U+FFFD, the `errors="replace"` character. -/
def unquoteChars : List Char → List Char
  | [] => []
  | '%' :: c1 :: c2 :: rest =>
    if hexChar c1 && hexChar c2 then
      (if hexVal c1 * 16 + hexVal c2 < 128 then Char.ofNat (hexVal c1 * 16 + hexVal c2)
       else Char.ofNat 0xFFFD) :: unquoteChars rest
    else '%' :: unquoteChars (c1 :: c2 :: rest)
  | c :: rest => c :: unquoteChars rest

/-- `str.replace('+', ' ')`. -/
def plusToSpace (l : List Char) : List Char := l.map (fun c => if c = '+' then ' ' else c)

/-- `str.split(d)`. -/
def splitChar (d : Char) : List Char → List (List Char)
  | [] => [[]]
  | c :: rest =>
    if c = d then [] :: splitChar d rest
    else
      match splitChar d rest with
      | [] => [[c]]
      | h :: t => (c :: h) :: t

/-- `parse_qsl(qs, keep_blank_values=True)`: split on `&`, skip empty
pieces, split each piece at its first `=` (a piece without `=` keeps a blank
value), then `+`-to-space and percent-decode names and values. -/
def parse_qsl_kbv (qs : List Char) : List (String × String) :=
  (if qs.isEmpty then [] else splitChar '&' qs).foldr (fun nv acc =>
    if nv.isEmpty then acc
    else
      (String.mk (unquoteChars (plusToSpace (splitOnceAt '=' nv).1)),
       String.mk (unquoteChars (plusToSpace (splitOnceAt '=' nv).2))) :: acc) []

/-- `d[k] = v` on an insertion-ordered dict: update in place, else append. -/
def dictSet (k v : String) : List (String × String) → List (String × String)
  | [] => [(k, v)]
  | kv :: rest => if kv.1 = k then (k, v) :: rest else kv :: dictSet k v rest

/-- `d.pop(k, None)`. -/
def dictPop (k : String) : List (String × String) → List (String × String)
  | [] => []
  | kv :: rest => if kv.1 = k then rest else kv :: dictPop k rest

/-- `dict(pairs)`: left-to-right insertion, later values win in place. -/
def dictOf (l : List (String × String)) : List (String × String) :=
  l.foldl (fun d kv => dictSet kv.1 kv.2 d) []

/-- `d.get(k)`. -/
def dictGet (k : String) (d : List (String × String)) : Option String :=
  (d.find? (fun kv => kv.1 == k)).map (fun kv => kv.2)

/-- The inner helper `set_param(keys, value)` of `build_entry_url`: for each
key, set it when the value is truthy, else pop it. -/
def setParam (keys : List String) (value : Option String)
    (q : List (String × String)) : List (String × String) :=
  keys.foldl (fun q k =>
    match value with
    | some v => if v ≠ "" then dictSet k v q else dictPop k q
    | none => dictPop k q) q

/-- The query-dict overlay of the explicit-search-url branch
(utils.py lines 56-77). -/
def overlayQuery (city : CityCfg) (q0 : List (String × String)) :
    List (String × String) :=
  let q1 := setParam ["checkIn", "startDate", "d1"] city.checkin q0
  let q2 := setParam ["checkOut", "endDate", "d2"] city.checkout q1
  let q3 := dictSet "adults" (toString (max 1 city.adults)) q2
  let q4 := if city.children ≠ 0 then dictSet "children" (toString city.children) q3
            else dictPop "children" q3
  let q5 := match city.region_id with
    | some rid => if rid ≠ "" then dictSet "regionId" rid q4 else q4
    | none => q4
  if city.sort ≠ "" then dictSet "sort" city.sort q5 else q5

/-- Python `a or b` for an optional string `a`. -/
def orStr (a : Option String) (b : String) : String :=
  match a with
  | some s => if s ≠ "" then s else b
  | none => b

/-- The query dict of the no-search-url branch (utils.py lines 80-107). -/
def destQuery (city : CityCfg) : List (String × String) :=
  let dest := orStr city.region_name (if city.name ≠ "" then city.name else "Colombia")
  let q1 := dictSet "destination" dest []
  let q2 := match city.region_id with
    | some rid => if rid ≠ "" then dictSet "regionId" rid q1 else q1
    | none => q1
  let q3 := if city.flexibility ≠ "" then dictSet "flexibility" city.flexibility q2 else q2
  let q4 := match city.checkin with
    | some ci => if ci ≠ "" then dictSet "startDate" ci (dictSet "d1" ci q3) else q3
    | none => q3
  let q5 := match city.checkout with
    | some co => if co ≠ "" then dictSet "endDate" co (dictSet "d2" co q4) else q4
    | none => q4
  let q6 := dictSet "adults" (toString (max 1 city.adults)) q5
  let q7 := if city.children ≠ 0 then dictSet "children" (toString city.children) q6
            else q6
  if city.sort ≠ "" then dictSet "sort" city.sort q7 else q7

structure UrlWithQuery where
  scheme : List Char
  netloc : List Char
  path : List Char
  params : List Char
  query : List (String × String)
  fragment : List Char
deriving DecidableEq

/-- `build_entry_url` at the structured-URL level; `none` models the
`urlparse` exception propagating on an unparseable explicit search url.
The no-search-url branch uses `VRBO_BASE + "/search"` as the base. -/
def build_entry_url (city : CityCfg) : Option UrlWithQuery :=
  match city.search_url with
  | some su =>
    match pyUrlparse su.data with
    | none => none
    | some parsed =>
      some ⟨parsed.scheme, parsed.netloc, parsed.path, parsed.params,
        overlayQuery city (dictOf (parse_qsl_kbv parsed.query)), parsed.fragment⟩
  | none =>
    some ⟨"https".data, "www.vrbo.com".data, "/search".data, [], destQuery city, []⟩

/-! ### Dict lemmas -/

theorem dictGet_set_self (k v : String) : ∀ d, dictGet k (dictSet k v d) = some v := by
  intro d
  induction d with
  | nil =>
    show ((dictSet k v []).find? _).map _ = _
    rw [show dictSet k v [] = [(k, v)] from rfl]
    rw [List.find?_cons_of_pos _ (by simp)]
    rfl
  | cons kv rest ih =>
    show ((dictSet k v (kv :: rest)).find? _).map _ = _
    rw [dictSet]
    by_cases hk : kv.1 = k
    · rw [if_pos hk, List.find?_cons_of_pos _ (by simp)]
      rfl
    · rw [if_neg hk, List.find?_cons_of_neg _ (by simp [hk])]
      exact ih

theorem dictGet_set_ne (k k' v : String) (h : k' ≠ k) :
    ∀ d, dictGet k (dictSet k' v d) = dictGet k d := by
  intro d
  induction d with
  | nil =>
    show ((dictSet k' v []).find? _).map _ = _
    rw [show dictSet k' v [] = [(k', v)] from rfl]
    rw [List.find?_cons_of_neg _ (by simp [h])]
    rfl
  | cons kv rest ih =>
    show ((dictSet k' v (kv :: rest)).find? _).map _ = _
    rw [dictSet]
    by_cases hk : kv.1 = k'
    · rw [if_pos hk]
      show _ = ((kv :: rest).find? _).map _
      rw [List.find?_cons_of_neg _ (by simp [h]),
        List.find?_cons_of_neg _ (by simp [hk, h])]
    · rw [if_neg hk]
      by_cases hm : kv.1 = k
      · show _ = ((kv :: rest).find? _).map _
        rw [List.find?_cons_of_pos _ (by simp [hm]),
          List.find?_cons_of_pos _ (by simp [hm])]
      · show _ = ((kv :: rest).find? _).map _
        rw [List.find?_cons_of_neg _ (by simp [hm]),
          List.find?_cons_of_neg _ (by simp [hm])]
        exact ih

theorem dictGet_pop_ne (k k' : String) (h : k' ≠ k) :
    ∀ d, dictGet k (dictPop k' d) = dictGet k d := by
  intro d
  induction d with
  | nil => rfl
  | cons kv rest ih =>
    show ((dictPop k' (kv :: rest)).find? _).map _ = _
    rw [dictPop]
    by_cases hk : kv.1 = k'
    · rw [if_pos hk]
      show _ = ((kv :: rest).find? _).map _
      rw [List.find?_cons_of_neg _ (by simp [hk, h])]
    · rw [if_neg hk]
      by_cases hm : kv.1 = k
      · show _ = ((kv :: rest).find? _).map _
        rw [List.find?_cons_of_pos _ (by simp [hm]),
          List.find?_cons_of_pos _ (by simp [hm])]
      · show _ = ((kv :: rest).find? _).map _
        rw [List.find?_cons_of_neg _ (by simp [hm]),
          List.find?_cons_of_neg _ (by simp [hm])]
        exact ih

theorem dictGet_none_of_not_mem (k : String) :
    ∀ d : List (String × String), k ∉ d.map Prod.fst → dictGet k d = none := by
  intro d
  induction d with
  | nil => intro _; rfl
  | cons kv rest ih =>
    intro hk
    have h1 : kv.1 ≠ k := fun h =>
      hk (h ▸ List.mem_map.mpr ⟨kv, List.mem_cons_self _ _, rfl⟩)
    have h2 : k ∉ rest.map Prod.fst := fun h =>
      hk (List.map_cons Prod.fst kv rest ▸ List.mem_cons_of_mem _ h)
    show ((kv :: rest).find? _).map _ = _
    rw [List.find?_cons_of_neg _ (by simp [h1])]
    exact ih h2

theorem dictGet_pop_self (k : String) :
    ∀ d : List (String × String), (d.map Prod.fst).Nodup →
      dictGet k (dictPop k d) = none := by
  intro d
  induction d with
  | nil => intro _; rfl
  | cons kv rest ih =>
    intro hnd
    rw [List.map_cons] at hnd
    have hpair := List.nodup_cons.mp hnd
    show ((dictPop k (kv :: rest)).find? _).map _ = _
    rw [dictPop]
    by_cases hk : kv.1 = k
    · rw [if_pos hk]
      apply dictGet_none_of_not_mem
      intro hm
      exact hpair.1 (by rw [hk]; exact hm)
    · rw [if_neg hk]
      show ((kv :: dictPop k rest).find? _).map _ = _
      rw [List.find?_cons_of_neg _ (by simp [hk])]
      exact ih hpair.2

theorem dictPop_sublist (k : String) :
    ∀ d : List (String × String), (dictPop k d).Sublist d := by
  intro d
  induction d with
  | nil => exact List.Sublist.refl []
  | cons kv rest ih =>
    rw [dictPop]
    by_cases hk : kv.1 = k
    · rw [if_pos hk]
      exact List.sublist_cons_self kv rest
    · rw [if_neg hk]
      exact ih.cons₂ kv

theorem dictSet_keys (k v : String) :
    ∀ d : List (String × String), (dictSet k v d).map Prod.fst
      = if k ∈ d.map Prod.fst then d.map Prod.fst else d.map Prod.fst ++ [k] := by
  intro d
  induction d with
  | nil => rfl
  | cons kv rest ih =>
    rw [dictSet]
    by_cases hk : kv.1 = k
    · rw [if_pos hk, if_pos (by
        rw [List.map_cons, hk]
        exact List.mem_cons_self _ _)]
      rw [List.map_cons, List.map_cons, hk]
    · rw [if_neg hk, List.map_cons, List.map_cons, ih]
      by_cases hm : k ∈ rest.map Prod.fst
      · rw [if_pos hm, if_pos (List.mem_cons_of_mem _ hm)]
      · rw [if_neg hm, if_neg (by
          intro hx
          rcases List.mem_cons.mp hx with he | he
          · exact hk he.symm
          · exact hm he)]
        rw [List.cons_append]

theorem dictSet_nodup (k v : String) (d : List (String × String))
    (h : (d.map Prod.fst).Nodup) : ((dictSet k v d).map Prod.fst).Nodup := by
  rw [dictSet_keys]
  by_cases hm : k ∈ d.map Prod.fst
  · rw [if_pos hm]; exact h
  · rw [if_neg hm]
    exact List.Nodup.append h (List.nodup_singleton k)
      (fun a ha hb => hm ((List.mem_singleton.mp hb) ▸ ha))

theorem dictPop_nodup (k : String) (d : List (String × String))
    (h : (d.map Prod.fst).Nodup) : ((dictPop k d).map Prod.fst).Nodup :=
  h.sublist ((dictPop_sublist k d).map Prod.fst)

theorem dictOf_foldl_nodup :
    ∀ l : List (String × String), ∀ d : List (String × String),
      (d.map Prod.fst).Nodup →
      ((l.foldl (fun d kv => dictSet kv.1 kv.2 d) d).map Prod.fst).Nodup := by
  intro l
  induction l with
  | nil => intro d h; exact h
  | cons kv rest ih =>
    intro d h
    exact ih (dictSet kv.1 kv.2 d) (dictSet_nodup kv.1 kv.2 d h)

theorem dictOf_nodup (l : List (String × String)) :
    ((dictOf l).map Prod.fst).Nodup :=
  dictOf_foldl_nodup l [] List.nodup_nil

theorem setParam_get_not_mem (value : Option String) (k : String) :
    ∀ keys : List String, k ∉ keys →
      ∀ q, dictGet k (setParam keys value q) = dictGet k q := by
  intro keys
  induction keys with
  | nil => intro _ q; rfl
  | cons a ks ih =>
    intro hk q
    have ha : a ≠ k := fun h => hk (h ▸ List.mem_cons_self a ks)
    have hks : k ∉ ks := fun h => hk (List.mem_cons_of_mem a h)
    show dictGet k (setParam ks value _) = _
    rw [ih hks]
    cases value with
    | none => exact dictGet_pop_ne k a ha _
    | some v =>
      by_cases hv : v ≠ ""
      · show dictGet k (if v ≠ "" then dictSet a v q else dictPop a q) = _
        rw [if_pos hv]
        exact dictGet_set_ne k a v ha q
      · show dictGet k (if v ≠ "" then dictSet a v q else dictPop a q) = _
        rw [if_neg hv]
        exact dictGet_pop_ne k a ha q

theorem setParam_nodup (value : Option String) :
    ∀ keys : List String, ∀ q, (q.map Prod.fst).Nodup →
      ((setParam keys value q).map Prod.fst).Nodup := by
  intro keys
  induction keys with
  | nil => intro q h; exact h
  | cons a ks ih =>
    intro q h
    show ((setParam ks value _).map Prod.fst).Nodup
    apply ih
    cases value with
    | none => exact dictPop_nodup a q h
    | some v =>
      by_cases hv : v ≠ ""
      · show (((if v ≠ "" then dictSet a v q else dictPop a q)).map Prod.fst).Nodup
        rw [if_pos hv]
        exact dictSet_nodup a v q h
      · show (((if v ≠ "" then dictSet a v q else dictPop a q)).map Prod.fst).Nodup
        rw [if_neg hv]
        exact dictPop_nodup a q h

/-! ### Query contents of `build_entry_url` -/

theorem overlayQuery_get_other (city : CityCfg) (q0 : List (String × String))
    (k : String)
    (hk : k ∉ (["checkIn", "startDate", "d1", "checkOut", "endDate", "d2",
      "adults", "children", "regionId", "sort"] : List String)) :
    dictGet k (overlayQuery city q0) = dictGet k q0 := by
  have hadults : "adults" ≠ k := fun h => hk (by rw [← h]; decide)
  have hchildren : "children" ≠ k := fun h => hk (by rw [← h]; decide)
  have hregion : "regionId" ≠ k := fun h => hk (by rw [← h]; decide)
  have hsort : "sort" ≠ k := fun h => hk (by rw [← h]; decide)
  have hin : k ∉ (["checkIn", "startDate", "d1"] : List String) := by
    intro h
    rcases List.mem_cons.mp h with he | h
    · exact hk (by rw [he]; decide)
    rcases List.mem_cons.mp h with he | h
    · exact hk (by rw [he]; decide)
    rcases List.mem_cons.mp h with he | h
    · exact hk (by rw [he]; decide)
    cases h
  have hout : k ∉ (["checkOut", "endDate", "d2"] : List String) := by
    intro h
    rcases List.mem_cons.mp h with he | h
    · exact hk (by rw [he]; decide)
    rcases List.mem_cons.mp h with he | h
    · exact hk (by rw [he]; decide)
    rcases List.mem_cons.mp h with he | h
    · exact hk (by rw [he]; decide)
    cases h
  unfold overlayQuery
  dsimp only
  have step4 : ∀ q, dictGet k (if city.children ≠ 0
      then dictSet "children" (toString city.children) q else dictPop "children" q)
      = dictGet k q := by
    intro q
    by_cases hc : city.children ≠ 0
    · rw [if_pos hc]; exact dictGet_set_ne k "children" _ hchildren q
    · rw [if_neg hc]; exact dictGet_pop_ne k "children" hchildren q
  have step5 : ∀ q, dictGet k (match city.region_id with
      | some rid => if rid ≠ "" then dictSet "regionId" rid q else q
      | none => q) = dictGet k q := by
    intro q
    cases city.region_id with
    | none => rfl
    | some rid =>
      by_cases hr : rid ≠ ""
      · show dictGet k (if rid ≠ "" then dictSet "regionId" rid q else q) = _
        rw [if_pos hr]
        exact dictGet_set_ne k "regionId" rid hregion q
      · show dictGet k (if rid ≠ "" then dictSet "regionId" rid q else q) = _
        rw [if_neg hr]
  have step6 : ∀ q, dictGet k (if city.sort ≠ "" then dictSet "sort" city.sort q else q)
      = dictGet k q := by
    intro q
    by_cases hsrt : city.sort ≠ ""
    · rw [if_pos hsrt]; exact dictGet_set_ne k "sort" _ hsort q
    · rw [if_neg hsrt]
  rw [step6, step5, step4, dictGet_set_ne k "adults" _ hadults,
    setParam_get_not_mem _ k _ hout, setParam_get_not_mem _ k _ hin]

theorem overlayQuery_get_adults (city : CityCfg) (q0 : List (String × String)) :
    dictGet "adults" (overlayQuery city q0) = some (toString (max 1 city.adults)) := by
  unfold overlayQuery
  dsimp only
  have step4 : ∀ q, dictGet "adults" (if city.children ≠ 0
      then dictSet "children" (toString city.children) q else dictPop "children" q)
      = dictGet "adults" q := by
    intro q
    by_cases hc : city.children ≠ 0
    · rw [if_pos hc]; exact dictGet_set_ne _ "children" _ (by decide) q
    · rw [if_neg hc]; exact dictGet_pop_ne _ "children" (by decide) q
  have step5 : ∀ q, dictGet "adults" (match city.region_id with
      | some rid => if rid ≠ "" then dictSet "regionId" rid q else q
      | none => q) = dictGet "adults" q := by
    intro q
    cases city.region_id with
    | none => rfl
    | some rid =>
      by_cases hr : rid ≠ ""
      · show dictGet "adults" (if rid ≠ "" then dictSet "regionId" rid q else q) = _
        rw [if_pos hr]
        exact dictGet_set_ne _ "regionId" rid (by decide) q
      · show dictGet "adults" (if rid ≠ "" then dictSet "regionId" rid q else q) = _
        rw [if_neg hr]
  have step6 : ∀ q, dictGet "adults"
      (if city.sort ≠ "" then dictSet "sort" city.sort q else q) = dictGet "adults" q := by
    intro q
    by_cases hsrt : city.sort ≠ ""
    · rw [if_pos hsrt]; exact dictGet_set_ne _ "sort" _ (by decide) q
    · rw [if_neg hsrt]
  rw [step6, step5, step4, dictGet_set_self "adults" _]

theorem overlayQuery_get_children (city : CityCfg) (q0 : List (String × String))
    (hnd : (q0.map Prod.fst).Nodup) :
    dictGet "children" (overlayQuery city q0)
      = if city.children ≠ 0 then some (toString city.children) else none := by
  unfold overlayQuery
  dsimp only
  have hnd3 : (((dictSet "adults" (toString (max 1 city.adults))
      (setParam ["checkOut", "endDate", "d2"] city.checkout
        (setParam ["checkIn", "startDate", "d1"] city.checkin q0))).map Prod.fst)).Nodup :=
    dictSet_nodup _ _ _ (setParam_nodup _ _ _ (setParam_nodup _ _ _ hnd))
  have step5 : ∀ q, dictGet "children" (match city.region_id with
      | some rid => if rid ≠ "" then dictSet "regionId" rid q else q
      | none => q) = dictGet "children" q := by
    intro q
    cases city.region_id with
    | none => rfl
    | some rid =>
      by_cases hr : rid ≠ ""
      · show dictGet "children" (if rid ≠ "" then dictSet "regionId" rid q else q) = _
        rw [if_pos hr]
        exact dictGet_set_ne _ "regionId" rid (by decide) q
      · show dictGet "children" (if rid ≠ "" then dictSet "regionId" rid q else q) = _
        rw [if_neg hr]
  have step6 : ∀ q, dictGet "children"
      (if city.sort ≠ "" then dictSet "sort" city.sort q else q)
      = dictGet "children" q := by
    intro q
    by_cases hsrt : city.sort ≠ ""
    · rw [if_pos hsrt]; exact dictGet_set_ne _ "sort" _ (by decide) q
    · rw [if_neg hsrt]
  rw [step6, step5]
  by_cases hc : city.children ≠ 0
  · rw [if_pos hc, if_pos hc, dictGet_set_self "children" _]
  · rw [if_neg hc, if_neg hc]
    exact dictGet_pop_self "children" _ hnd3

theorem destQuery_get_destination (city : CityCfg) :
    dictGet "destination" (destQuery city)
      = some (orStr city.region_name
          (if city.name ≠ "" then city.name else "Colombia")) := by
  unfold destQuery
  dsimp only
  have stepSort : ∀ q, dictGet "destination"
      (if city.sort ≠ "" then dictSet "sort" city.sort q else q)
      = dictGet "destination" q := by
    intro q
    by_cases h : city.sort ≠ ""
    · rw [if_pos h]; exact dictGet_set_ne _ "sort" _ (by decide) q
    · rw [if_neg h]
  have stepChildren : ∀ q, dictGet "destination"
      (if city.children ≠ 0 then dictSet "children" (toString city.children) q else q)
      = dictGet "destination" q := by
    intro q
    by_cases h : city.children ≠ 0
    · rw [if_pos h]; exact dictGet_set_ne _ "children" _ (by decide) q
    · rw [if_neg h]
  have stepCheckout : ∀ q, dictGet "destination" (match city.checkout with
      | some co => if co ≠ "" then dictSet "endDate" co (dictSet "d2" co q) else q
      | none => q) = dictGet "destination" q := by
    intro q
    cases city.checkout with
    | none => rfl
    | some co =>
      by_cases h : co ≠ ""
      · show dictGet "destination"
          (if co ≠ "" then dictSet "endDate" co (dictSet "d2" co q) else q) = _
        rw [if_pos h, dictGet_set_ne _ "endDate" co (by decide),
          dictGet_set_ne _ "d2" co (by decide)]
      · show dictGet "destination"
          (if co ≠ "" then dictSet "endDate" co (dictSet "d2" co q) else q) = _
        rw [if_neg h]
  have stepCheckin : ∀ q, dictGet "destination" (match city.checkin with
      | some ci => if ci ≠ "" then dictSet "startDate" ci (dictSet "d1" ci q) else q
      | none => q) = dictGet "destination" q := by
    intro q
    cases city.checkin with
    | none => rfl
    | some ci =>
      by_cases h : ci ≠ ""
      · show dictGet "destination"
          (if ci ≠ "" then dictSet "startDate" ci (dictSet "d1" ci q) else q) = _
        rw [if_pos h, dictGet_set_ne _ "startDate" ci (by decide),
          dictGet_set_ne _ "d1" ci (by decide)]
      · show dictGet "destination"
          (if ci ≠ "" then dictSet "startDate" ci (dictSet "d1" ci q) else q) = _
        rw [if_neg h]
  have stepFlex : ∀ q, dictGet "destination"
      (if city.flexibility ≠ "" then dictSet "flexibility" city.flexibility q else q)
      = dictGet "destination" q := by
    intro q
    by_cases h : city.flexibility ≠ ""
    · rw [if_pos h]; exact dictGet_set_ne _ "flexibility" _ (by decide) q
    · rw [if_neg h]
  have stepRegion : ∀ q, dictGet "destination" (match city.region_id with
      | some rid => if rid ≠ "" then dictSet "regionId" rid q else q
      | none => q) = dictGet "destination" q := by
    intro q
    cases city.region_id with
    | none => rfl
    | some rid =>
      by_cases h : rid ≠ ""
      · show dictGet "destination" (if rid ≠ "" then dictSet "regionId" rid q else q) = _
        rw [if_pos h]
        exact dictGet_set_ne _ "regionId" rid (by decide) q
      · show dictGet "destination" (if rid ≠ "" then dictSet "regionId" rid q else q) = _
        rw [if_neg h]
  rw [stepSort, stepChildren, dictGet_set_ne _ "adults" _ (by decide), stepCheckout,
    stepCheckin, stepFlex, stepRegion, dictGet_set_self "destination" _]

theorem destQuery_get_children (city : CityCfg) :
    dictGet "children" (destQuery city)
      = if city.children ≠ 0 then some (toString city.children) else none := by
  unfold destQuery
  dsimp only
  have stepSort : ∀ q, dictGet "children"
      (if city.sort ≠ "" then dictSet "sort" city.sort q else q)
      = dictGet "children" q := by
    intro q
    by_cases h : city.sort ≠ ""
    · rw [if_pos h]; exact dictGet_set_ne _ "sort" _ (by decide) q
    · rw [if_neg h]
  have stepCheckout : ∀ q, dictGet "children" (match city.checkout with
      | some co => if co ≠ "" then dictSet "endDate" co (dictSet "d2" co q) else q
      | none => q) = dictGet "children" q := by
    intro q
    cases city.checkout with
    | none => rfl
    | some co =>
      by_cases h : co ≠ ""
      · show dictGet "children"
          (if co ≠ "" then dictSet "endDate" co (dictSet "d2" co q) else q) = _
        rw [if_pos h, dictGet_set_ne _ "endDate" co (by decide),
          dictGet_set_ne _ "d2" co (by decide)]
      · show dictGet "children"
          (if co ≠ "" then dictSet "endDate" co (dictSet "d2" co q) else q) = _
        rw [if_neg h]
  have stepCheckin : ∀ q, dictGet "children" (match city.checkin with
      | some ci => if ci ≠ "" then dictSet "startDate" ci (dictSet "d1" ci q) else q
      | none => q) = dictGet "children" q := by
    intro q
    cases city.checkin with
    | none => rfl
    | some ci =>
      by_cases h : ci ≠ ""
      · show dictGet "children"
          (if ci ≠ "" then dictSet "startDate" ci (dictSet "d1" ci q) else q) = _
        rw [if_pos h, dictGet_set_ne _ "startDate" ci (by decide),
          dictGet_set_ne _ "d1" ci (by decide)]
      · show dictGet "children"
          (if ci ≠ "" then dictSet "startDate" ci (dictSet "d1" ci q) else q) = _
        rw [if_neg h]
  have stepFlex : ∀ q, dictGet "children"
      (if city.flexibility ≠ "" then dictSet "flexibility" city.flexibility q else q)
      = dictGet "children" q := by
    intro q
    by_cases h : city.flexibility ≠ ""
    · rw [if_pos h]; exact dictGet_set_ne _ "flexibility" _ (by decide) q
    · rw [if_neg h]
  have stepRegion : ∀ q, dictGet "children" (match city.region_id with
      | some rid => if rid ≠ "" then dictSet "regionId" rid q else q
      | none => q) = dictGet "children" q := by
    intro q
    cases city.region_id with
    | none => rfl
    | some rid =>
      by_cases h : rid ≠ ""
      · show dictGet "children" (if rid ≠ "" then dictSet "regionId" rid q else q) = _
        rw [if_pos h]
        exact dictGet_set_ne _ "regionId" rid (by decide) q
      · show dictGet "children" (if rid ≠ "" then dictSet "regionId" rid q else q) = _
        rw [if_neg h]
  rw [stepSort]
  by_cases hc : city.children ≠ 0
  · rw [if_pos hc, if_pos hc, dictGet_set_self "children" _]
  · rw [if_neg hc, if_neg hc]
    rw [dictGet_set_ne _ "adults" _ (by decide), stepCheckout, stepCheckin, stepFlex,
      stepRegion, dictGet_set_ne _ "destination" _ (by decide)]
    rfl

/-- C6 counterexample: for a config with no search url, empty name, no region
name and `children = -1`, the claim as stated fails twice: the destination
parameter is the fixed fallback "Colombia", not the city's (empty) name, and
the children parameter is present (value "-1") although the count is not
greater than 0 — the code tests Python truthiness (`count != 0`), not
`count > 0`. -/
theorem claim_C6_counterexample :
    (build_entry_url { name := "", children := -1 }).map
      (fun u => (dictGet "destination" u.query, dictGet "children" u.query))
      = some (some "Colombia", some "-1") ∧
    ({ name := "", children := -1 } : CityCfg).children ≤ 0 ∧
    ({ name := "", children := -1 } : CityCfg).name = "" ∧
    ({ name := "", children := -1 } : CityCfg).region_name = none := by
  refine ⟨by decide, by decide, rfl, rfl⟩

/-- C6 (amended): with an explicit search url whose query is
`foo=bar&adults=1` and an adults count of 3, the built URL retains
`foo=bar` and carries `adults=3`; with no search url the `destination`
parameter is the region name when non-empty, else the city name when
non-empty, else the fixed default "Colombia"; and in both branches the
`children` parameter is present iff the children count is non-zero (for
non-negative counts: iff it is greater than 0). -/
theorem claim_C6_entry_url (city : CityCfg) :
    (∀ su : String, ∀ parsed : UrlParse, city.search_url = some su →
      pyUrlparse su.data = some parsed → parsed.query = "foo=bar&adults=1".data →
      city.adults = 3 →
      (build_entry_url city).map
        (fun u => (dictGet "foo" u.query, dictGet "adults" u.query))
        = some (some "bar", some "3")) ∧
    (city.search_url = none → ∀ u : UrlWithQuery, build_entry_url city = some u →
      (∀ r, city.region_name = some r → r ≠ "" →
        dictGet "destination" u.query = some r) ∧
      ((city.region_name = none ∨ city.region_name = some "") → city.name ≠ "" →
        dictGet "destination" u.query = some city.name) ∧
      ((city.region_name = none ∨ city.region_name = some "") → city.name = "" →
        dictGet "destination" u.query = some "Colombia")) ∧
    (∀ u : UrlWithQuery, build_entry_url city = some u →
      ((dictGet "children" u.query).isSome = true ↔ city.children ≠ 0)) := by
  refine ⟨?_, ?_, ?_⟩
  · intro su parsed hsu hparse hq hadults
    unfold build_entry_url
    rw [hsu]
    dsimp only
    rw [hparse]
    dsimp only
    rw [Option.map_some']
    dsimp only
    rw [hq]
    have hq0 : dictOf (parse_qsl_kbv "foo=bar&adults=1".data)
        = [("foo", "bar"), ("adults", "1")] := by decide
    rw [hq0]
    rw [overlayQuery_get_other city _ "foo" (by decide),
      overlayQuery_get_adults city _, hadults]
    rfl
  · intro hnone u hu
    unfold build_entry_url at hu
    rw [hnone] at hu
    dsimp only at hu
    injection hu with hu
    subst hu
    dsimp only
    refine ⟨?_, ?_, ?_⟩
    · intro r hr hrne
      rw [destQuery_get_destination, hr]
      show some (if r ≠ "" then r else _) = some r
      rw [if_pos hrne]
    · intro hopt hname
      rw [destQuery_get_destination]
      rcases hopt with hopt | hopt
      · rw [hopt]
        show some (if city.name ≠ "" then city.name else "Colombia") = some city.name
        rw [if_pos hname]
      · rw [hopt]
        show some (if ("" : String) ≠ ""
          then "" else (if city.name ≠ "" then city.name else "Colombia")) = some city.name
        rw [if_neg (by simp), if_pos hname]
    · intro hopt hname
      rw [destQuery_get_destination]
      rcases hopt with hopt | hopt
      · rw [hopt]
        show some (if city.name ≠ "" then city.name else "Colombia") = some "Colombia"
        rw [if_neg (by simp [hname])]
      · rw [hopt]
        show some (if ("" : String) ≠ ""
          then "" else (if city.name ≠ "" then city.name else "Colombia")) = some "Colombia"
        rw [if_neg (by simp), if_neg (by simp [hname])]
  · intro u hu
    unfold build_entry_url at hu
    cases hs : city.search_url with
    | some su =>
      rw [hs] at hu
      dsimp only at hu
      cases hp : pyUrlparse su.data with
      | none =>
        rw [hp] at hu
        cases hu
      | some parsed =>
        rw [hp] at hu
        dsimp only at hu
        injection hu with hu
        subst hu
        dsimp only
        rw [overlayQuery_get_children city _ (dictOf_nodup _)]
        by_cases hc : city.children ≠ 0
        · rw [if_pos hc]
          simp [hc]
        · rw [if_neg hc]
          simp [hc]
    | none =>
      rw [hs] at hu
      dsimp only at hu
      injection hu with hu
      subst hu
      dsimp only
      rw [destQuery_get_children city]
      by_cases hc : city.children ≠ 0
      · rw [if_pos hc]
        simp [hc]
      · rw [if_neg hc]
        simp [hc]

def c6aCfg : CityCfg := { name := "Bogota", adults := 3, search_url := some "https://www.vrbo.com/search?foo=bar&adults=1" }

theorem claim_C6_entry_url_witness :
    (build_entry_url c6aCfg).map
      (fun u => (dictGet "foo" u.query, dictGet "adults" u.query))
      = some (some "bar", some "3") ∧
    (build_entry_url { name := "Bogota", region_name := some "Region X" }).map
      (fun u => dictGet "destination" u.query) = some (some "Region X") ∧
    (build_entry_url { name := "Bogota", children := 2 }).map
      (fun u => (dictGet "children" u.query).isSome) = some true := by
  refine ⟨?_, ?_, ?_⟩
  · exact (claim_C6_entry_url c6aCfg).1
      "https://www.vrbo.com/search?foo=bar&adults=1"
      ⟨"https".data, "www.vrbo.com".data, "/search".data, [], "foo=bar&adults=1".data, []⟩
      rfl (by decide) rfl rfl
  · cases hb : build_entry_url { name := "Bogota", region_name := some "Region X" } with
    | none =>
      have : (build_entry_url { name := "Bogota", region_name := some "Region X" }).isSome
          = true := by decide
      rw [hb] at this
      cases this
    | some u =>
      have h := ((claim_C6_entry_url { name := "Bogota", region_name := some "Region X" }).2.1
        rfl u hb).1 "Region X" rfl (by decide)
      rw [Option.map_some']
      rw [h]
  · cases hb : build_entry_url { name := "Bogota", children := 2 } with
    | none =>
      have : (build_entry_url { name := "Bogota", children := 2 }).isSome = true := by
        decide
      rw [hb] at this
      cases this
    | some u =>
      have h := ((claim_C6_entry_url { name := "Bogota", children := 2 }).2.2 u hb).mpr
        (by decide)
      show some ((dictGet "children" u.query).isSome) = some true
      rw [h]

end Vrbo
